import Mathlib

/-!
Library management system: the lending state machine.

A shallow embedding of `librarymanagementsql.cpp`.

* The SQLite store behind `DBManager` is modelled by its three tables, each a
  list of rows in insertion order.  Every statement the program issues is
  modelled by its effect on those lists (`INSERT` appends a row, `UPDATE`
  rewrites every matching row, `DELETE` drops every matching row,
  `SELECT COUNT(*)` counts matching rows, a scan returns the rows in list
  order, except where SQLite answers from an index, see
  `DBManager.selectBorrowed`).
* The program builds each `INSERT INTO USERS` and `INSERT INTO BOOKS` by
  splicing the caller's text between quotes and hands the result to
  `sqlite3_exec`.  When the text has no quote character and no NUL
  (`textSafe`), the statement is the intended `INSERT` and stores the text
  unchanged.  Otherwise the statement text is a different one (a syntax error,
  or further statements smuggled in by the text); the model does not
  describe it: `insertUser` and `insertBook` return `none`, and so do the
  calls and the command sequences that reach them.  For three such texts the
  state the program is left in is written out (`smuggledRecordState`,
  `smuggledDeleteState`, `smuggledUpdateState`) and the operations are
  evaluated on it.
* `COPIES` lives in the store as a mathematical integer: SQLite keeps 64-bit
  integers and each call changes the value by at most one `int`, so the 64-bit
  bound is out of reach of fewer than `2^32` calls.  The C++ side reads the
  value back into an `int`: `sqlite3_column_int` keeps the low 32 bits
  (`toInt32`), and `stoi` throws outside the `int` range, which
  `loadBookCallback` swallows, skipping that row.
* `Book::numberOfCopies` is an `int`, modelled by the subtype `CInt`.
  `numberOfCopies++` at `INT_MAX` is undefined in C++; it is modelled by the
  two's complement wrap.
* Identifiers are `int` arguments that are written to and read from the store
  unchanged (the read-side conversions are the identity on them); they are
  modelled in `Int`.
* No statement of a modelled call fails: every `INSERT` is issued after the
  existence test on its key, so within the model `DBManager::execute` never
  throws.
* Console output is dropped; every operation returns an `Outcome` naming the
  branch taken, together with the next state.
-/

namespace Library

/-! ## Machine integers -/

/-- Largest value of a C++ `int`. -/
def INT_MAX : Int := 2147483647

/-- Values of a C++ `int` (32 bits, two's complement). -/
abbrev CInt := { x : Int // -2147483648 ≤ x ∧ x ≤ 2147483647 }

/-- Low 32 bits of an integer read as a signed value, what
`sqlite3_column_int` returns for a 64-bit column value. -/
def toInt32 (x : Int) : Int := (x + 2147483648) % 4294967296 - 2147483648

/-- Reduction of an integer to a C++ `int` by two's complement wrap. -/
def CInt.wrap (x : Int) : CInt :=
  ⟨toInt32 x, by unfold toInt32; omega⟩

/-! ## Book -/

/-- Class `Book`. -/
structure Book where
  bookId : Int
  title : String
  author : String
  numberOfCopies : CInt
deriving DecidableEq

/-- Method `Book::getCopies`. -/
def Book.getCopies (k : Book) : Int := k.numberOfCopies.val

/-- Method `Book::isAvailable`. -/
def Book.isAvailable (k : Book) : Bool := decide (0 < k.numberOfCopies.val)

/-- Method `Book::decreaseCopy`: `if (numberOfCopies > 0) numberOfCopies--`. -/
def Book.decreaseCopy (k : Book) : Book :=
  if h : 0 < k.numberOfCopies.val then
    { k with numberOfCopies := ⟨k.numberOfCopies.val - 1, by
        have h2 := k.numberOfCopies.property; omega⟩ }
  else k

/-- Method `Book::increaseCopy`: `numberOfCopies++`. -/
def Book.increaseCopy (k : Book) : Book :=
  { k with numberOfCopies := CInt.wrap (k.numberOfCopies.val + 1) }

/-! ## Users -/

/-- Class hierarchy `User` with its two concrete classes `Student` and
`Librarian`. -/
inductive User where
  | Student (userId : Int) (name : String) (borrowedBookIds : List Int)
  | Librarian (userId : Int) (name : String)
deriving DecidableEq

/-- Method `User::getId`. -/
def User.getId : User → Int
  | .Student userId _ _ => userId
  | .Librarian userId _ => userId

/-- Method `User::getRole`: the role string fixed by each constructor. -/
def User.getRole : User → String
  | .Student _ _ _ => "Student"
  | .Librarian _ _ => "Librarian"

/-- Method `Student::borrowBook`: `push_back` without any check.  Only ever
called through a successful `dynamic_cast<Student*>`. -/
def User.borrowBook (bookId : Int) : User → User
  | .Student userId name bs => .Student userId name (bs ++ [bookId])
  | .Librarian userId name => .Librarian userId name

/-- Method `Student::returnBook`: erase the first occurrence, if any. -/
def User.returnBook (bookId : Int) : User → User
  | .Student userId name bs => .Student userId name (bs.erase bookId)
  | .Librarian userId name => .Librarian userId name

/-! ## Store -/

/-- Row of table `USERS(ID, NAME, ROLE)`. -/
structure UserRow where
  ID : Int
  NAME : String
  ROLE : String
deriving DecidableEq

/-- Row of table `BOOKS(ID, TITLE, AUTHOR, COPIES)`. -/
structure BookRow where
  ID : Int
  TITLE : String
  AUTHOR : String
  COPIES : Int
deriving DecidableEq

/-- Tables behind `DBManager`; a `TRANSACTIONS` row is `(USER_ID, BOOK_ID)`. -/
structure DBManager where
  USERS : List UserRow
  BOOKS : List BookRow
  TRANSACTIONS : List (Int × Int)
deriving DecidableEq

/-- Store right after `initializeTables` on a new file. -/
def DBManager.empty : DBManager := { USERS := [], BOOKS := [], TRANSACTIONS := [] }

/-- Call `exists("USERS", id)`: `SELECT COUNT(*) ... WHERE ID = id` is
positive. -/
def DBManager.existsUser (db : DBManager) (id : Int) : Bool :=
  decide (0 < db.USERS.countP (fun r => r.ID = id))

/-- Call `exists("BOOKS", id)`. -/
def DBManager.existsBook (db : DBManager) (id : Int) : Bool :=
  decide (0 < db.BOOKS.countP (fun r => r.ID = id))

/-- Method `DBManager::isBookBorrowed`. -/
def DBManager.isBookBorrowed (db : DBManager) (userId bookId : Int) : Bool :=
  decide (0 < db.TRANSACTIONS.countP (fun p => p.1 = userId ∧ p.2 = bookId))

/-- First row of `SELECT ... FROM BOOKS WHERE ID = id`. -/
def DBManager.selectBook (db : DBManager) (id : Int) : Option BookRow :=
  db.BOOKS.find? (fun r => r.ID = id)

/-- Persisted `COPIES` of a book, when it has a row. -/
def DBManager.selectCopies (db : DBManager) (id : Int) : Option Int :=
  (db.selectBook id).map BookRow.COPIES

/-- Call `getString("SELECT TITLE FROM BOOKS WHERE ID = id")`: the text of the
first row, the empty string when there is none. -/
def DBManager.getStringTitle (db : DBManager) (id : Int) : String :=
  match db.selectBook id with
  | some r => r.TITLE
  | none => ""

/-- Call `getScalar("SELECT COPIES FROM BOOKS WHERE ID = id")`: the low 32
bits of the first row, and `-1` when there is none. -/
def DBManager.getScalarCopies (db : DBManager) (id : Int) : Int :=
  match db.selectBook id with
  | some r => toInt32 r.COPIES
  | none => -1

/-- Text that a statement built by concatenation carries unchanged between its
quotes: no quote character (code 39), which would end the literal, and no NUL
(code 0), which would end the statement text. -/
def textSafe (s : String) : Bool :=
  s.toList.all (fun c => c != Char.ofNat 39 && c != Char.ofNat 0)

/-- Statement `"INSERT INTO USERS (ID, NAME, ROLE) VALUES (" + id + ", '" +
name + "', 'Student');"` (or `'Librarian'`) run by `execute`.  With a safe
`name` it appends the row; otherwise the text run is not this statement and
the result is outside the model (`none`). -/
def DBManager.insertUser (db : DBManager) (id : Int) (name role : String) :
    Option DBManager :=
  if textSafe name then some { db with USERS := db.USERS ++ [⟨id, name, role⟩] }
  else none

/-- Statement `"INSERT INTO BOOKS (ID, TITLE, AUTHOR, COPIES) VALUES (" + id +
", '" + title + "', '" + author + "', " + copies + ");"` run by `execute`.
With safe `title` and `author` it appends the row; otherwise the text run is
not this statement and the result is outside the model (`none`). -/
def DBManager.insertBook (db : DBManager) (id : Int) (title author : String)
    (copies : Int) : Option DBManager :=
  if textSafe title ∧ textSafe author then
    some { db with BOOKS := db.BOOKS ++ [⟨id, title, author, copies⟩] }
  else none

/-- Statement `UPDATE BOOKS SET COPIES = COPIES + delta WHERE ID = id`. -/
def DBManager.updateCopies (db : DBManager) (id : Int) (delta : Int) : DBManager :=
  { db with
    BOOKS := List.map (fun r => if r.ID = id then { r with COPIES := r.COPIES + delta } else r) db.BOOKS }

/-- Statement `INSERT INTO TRANSACTIONS (USER_ID, BOOK_ID) VALUES (...)`. -/
def DBManager.insertTransaction (db : DBManager) (userId bookId : Int) : DBManager :=
  { db with TRANSACTIONS := db.TRANSACTIONS ++ [(userId, bookId)] }

/-- Statement `DELETE FROM TRANSACTIONS WHERE USER_ID=... AND BOOK_ID=...`. -/
def DBManager.deleteTransaction (db : DBManager) (userId bookId : Int) : DBManager :=
  { db with
    TRANSACTIONS := List.filter (fun p => ¬ (p.1 = userId ∧ p.2 = bookId)) db.TRANSACTIONS }

/-! ## Library system -/

/-- Class `LibrarySystem`: the store handle and the two in-memory lists. -/
structure LibrarySystem where
  db : DBManager
  books : List Book
  users : List User
deriving DecidableEq

/-- Branch taken by an operation.  `permissionDenied`, `invalidUser`,
`invalidBook` and `bookNotAvailable` are the four thrown exceptions; the
others are ordinary returns. -/
inductive Outcome where
  | userAdded
  | userIdExists
  | permissionDenied
  | bookAdded
  | copiesIncreased
  | titleConflict
  | invalidUser
  | invalidBook
  | bookNotAvailable
  | alreadyBorrowed
  | onlyStudents
  | borrowed
  | notBorrowed
  | returned
  | noAction
  | displayed
deriving DecidableEq

/-- Outcomes that are C++ exceptions. -/
def Outcome.isException : Outcome → Bool
  | .permissionDenied => true
  | .invalidUser => true
  | .invalidBook => true
  | .bookNotAvailable => true
  | _ => false

/-- Mutation through the pointer returned by a first-match search: only the
first element satisfying `p` is changed. -/
def modifyFirst {α : Type} (p : α → Bool) (f : α → α) : List α → List α
  | [] => []
  | x :: xs => if p x then f x :: xs else x :: modifyFirst p f xs

/-- Callback `loadBookCallback`: `stoi` on `COPIES` throws outside the `int`
range and the row is then skipped; the identifier is read back unchanged. -/
def loadBookCallback (r : BookRow) : Option Book :=
  if h : -2147483648 ≤ r.COPIES ∧ r.COPIES ≤ 2147483647 then
    some { bookId := r.ID, title := r.TITLE, author := r.AUTHOR, numberOfCopies := ⟨r.COPIES, h⟩ }
  else none

/-- Method `loadBooks`: the list rebuilt from `SELECT * FROM BOOKS`. -/
def loadBooks (db : DBManager) : List Book :=
  db.BOOKS.filterMap loadBookCallback

/-- Rows of `SELECT BOOK_ID FROM TRANSACTIONS WHERE USER_ID = id`.  SQLite
answers this query from the index of the primary key `(USER_ID, BOOK_ID)`, so
the rows come in increasing `BOOK_ID`. -/
def DBManager.selectBorrowed (db : DBManager) (id : Int) : List Int :=
  ((db.TRANSACTIONS.filter (fun p => p.1 = id)).map Prod.snd).insertionSort (fun x y => x ≤ y)

/-- Body of the row loop of `loadUsers`. -/
def loadUserRow (db : DBManager) (r : UserRow) : Option User :=
  if r.ROLE = "Librarian" then some (.Librarian r.ID r.NAME)
  else if r.ROLE = "Student" then some (.Student r.ID r.NAME (db.selectBorrowed r.ID))
  else none

/-- Method `loadUsers`: the list rebuilt from `USERS` and `TRANSACTIONS`. -/
def loadUsers (db : DBManager) : List User :=
  db.USERS.filterMap (loadUserRow db)

/-- Constructor `LibrarySystem()`: `loadBooks(); loadUsers();` on a store. -/
def LibrarySystem.construct (db : DBManager) : LibrarySystem :=
  { db := db, books := loadBooks db, users := loadUsers db }

/-- System constructed on an empty store. -/
def LibrarySystem.init : LibrarySystem := LibrarySystem.construct DBManager.empty

/-- Method `findBook`. -/
def LibrarySystem.findBook (st : LibrarySystem) (bookId : Int) : Option Book :=
  st.books.find? (fun k => k.bookId = bookId)

/-- Method `findUser`. -/
def LibrarySystem.findUser (st : LibrarySystem) (userId : Int) : Option User :=
  st.users.find? (fun u => u.getId = userId)

/-- Method `addStudent`; `none` when the `INSERT` is outside the model. -/
def LibrarySystem.addStudent (st : LibrarySystem) (id : Int) (name : String) :
    Option (Outcome × LibrarySystem) :=
  if st.db.existsUser id then some (.userIdExists, st)
  else
    match st.db.insertUser id name "Student" with
    | none => none
    | some db1 => some (.userAdded, { st with db := db1, users := st.users ++ [.Student id name []] })

/-- Method `addLibrarian`; `none` when the `INSERT` is outside the model. -/
def LibrarySystem.addLibrarian (st : LibrarySystem) (id : Int) (name : String) :
    Option (Outcome × LibrarySystem) :=
  if st.db.existsUser id then some (.userIdExists, st)
  else
    match st.db.insertUser id name "Librarian" with
    | none => none
    | some db1 => some (.userAdded, { st with db := db1, users := st.users ++ [.Librarian id name] })

/-- Method `addBook`; `none` when the `INSERT` is outside the model.  The
merge and the conflict branch splice no text into a statement. -/
def LibrarySystem.addBook (st : LibrarySystem) (userId bookId : Int)
    (title author : String) (copies : Int) : Option (Outcome × LibrarySystem) :=
  match st.findUser userId with
  | none => some (.permissionDenied, st)
  | some user =>
    if user.getRole ≠ "Librarian" then some (.permissionDenied, st)
    else if st.db.existsBook bookId then
      if st.db.getStringTitle bookId = title then
        let db1 := st.db.updateCopies bookId copies
        some (.copiesIncreased, { st with db := db1, books := loadBooks db1 })
      else some (.titleConflict, st)
    else
      match st.db.insertBook bookId title author copies with
      | none => none
      | some db1 => some (.bookAdded, { st with db := db1, books := loadBooks db1 })

/-- Method `borrowBook`. -/
def LibrarySystem.borrowBook (st : LibrarySystem) (userId bookId : Int) :
    Outcome × LibrarySystem :=
  match st.findUser userId with
  | none => (.invalidUser, st)
  | some user =>
    match st.findBook bookId with
    | none => (.invalidBook, st)
    | some _ =>
      if st.db.getScalarCopies bookId ≤ 0 then (.bookNotAvailable, st)
      else if st.db.isBookBorrowed userId bookId then (.alreadyBorrowed, st)
      else
        match user with
        | .Student _ _ _ =>
          (.borrowed,
            { db := (st.db.insertTransaction userId bookId).updateCopies bookId (-1),
              users := modifyFirst (fun u => u.getId = userId) (User.borrowBook bookId) st.users,
              books := modifyFirst (fun k => k.bookId = bookId) Book.decreaseCopy st.books })
        | .Librarian _ _ => (.onlyStudents, st)

/-- Method `returnBook`. -/
def LibrarySystem.returnBook (st : LibrarySystem) (userId bookId : Int) :
    Outcome × LibrarySystem :=
  match st.findUser userId with
  | none => (.invalidUser, st)
  | some user =>
    match st.findBook bookId with
    | none => (.invalidBook, st)
    | some _ =>
      if ¬ st.db.isBookBorrowed userId bookId then (.notBorrowed, st)
      else
        match user with
        | .Student _ _ _ =>
          (.returned,
            { db := (st.db.deleteTransaction userId bookId).updateCopies bookId 1,
              users := modifyFirst (fun u => u.getId = userId) (User.returnBook bookId) st.users,
              books := modifyFirst (fun k => k.bookId = bookId) Book.increaseCopy st.books })
        | .Librarian _ _ => (.noAction, st)

/-- Method `displayAll`: both lists are reloaded from the store. -/
def LibrarySystem.displayAll (st : LibrarySystem) : Outcome × LibrarySystem :=
  (.displayed, { st with books := loadBooks st.db, users := loadUsers st.db })

/-! ## Command loop -/

/-- One menu command of `main` with its arguments. -/
inductive Op where
  | addLibrarian (id : Int) (name : String)
  | addStudent (id : Int) (name : String)
  | addBook (userId bookId : Int) (title author : String) (copies : Int)
  | borrowBook (userId bookId : Int)
  | returnBook (userId bookId : Int)
  | displayAll
deriving DecidableEq

/-- One iteration of the command loop; a thrown exception is caught by the
loop and leaves the state as the operation left it.  `none` when the command
runs a statement outside the model. -/
def step (st : LibrarySystem) : Op → Option (Outcome × LibrarySystem)
  | .addLibrarian id name => st.addLibrarian id name
  | .addStudent id name => st.addStudent id name
  | .addBook u b t a c => st.addBook u b t a c
  | .borrowBook u b => some (st.borrowBook u b)
  | .returnBook u b => some (st.returnBook u b)
  | .displayAll => some st.displayAll

/-- State after a sequence of commands; `none` when one of them runs a
statement outside the model. -/
def run (st : LibrarySystem) : List Op → Option LibrarySystem
  | [] => some st
  | op :: ops =>
    match step st op with
    | none => none
    | some r => run r.2 ops

/-- State reached from the empty store by a command sequence that stays
inside the model (the initial state otherwise). -/
def stateAfter (ops : List Op) : LibrarySystem :=
  (run LibrarySystem.init ops).getD LibrarySystem.init

/-- Commands whose text arguments are all safe. -/
def Op.textSafe : Op → Bool
  | .addLibrarian _ name => Library.textSafe name
  | .addStudent _ name => Library.textSafe name
  | .addBook _ _ title author _ => Library.textSafe title && Library.textSafe author
  | _ => true

/-- Commands whose `copies` argument, if any, is not negative. -/
def Op.copiesNonneg : Op → Bool
  | .addBook _ _ _ _ c => decide (0 ≤ c)
  | _ => true

/-- Copies that one command adds to book `b`: the `copies` argument of an
`addBook` on `b` that inserted or merged, zero otherwise. -/
def addedBy (st : LibrarySystem) (op : Op) (b : Int) : Int :=
  match op with
  | .addBook u bid t a c =>
    if bid = b ∧ ((st.addBook u bid t a c).map Prod.fst = some .bookAdded
        ∨ (st.addBook u bid t a c).map Prod.fst = some .copiesIncreased) then c else 0
  | _ => 0

/-- Total copies added to book `b` by the successful `addBook` calls of a
command sequence started in `st`. -/
def totalAdded (st : LibrarySystem) (ops : List Op) (b : Int) : Int :=
  match ops with
  | [] => 0
  | op :: rest =>
    match step st op with
    | none => 0
    | some r => addedBy st op b + totalAdded r.2 rest b

/-- Number of `TRANSACTIONS` rows with `BOOK_ID = b`. -/
def borrowCount (st : LibrarySystem) (b : Int) : Int :=
  ((st.db.TRANSACTIONS.filter (fun p => p.2 = b)).length : Int)

/-- Persisted copy count of a book, zero when the book has no row. -/
def storedCopies (st : LibrarySystem) (b : Int) : Int :=
  (st.db.selectCopies b).getD 0

/-! ## Properties of states -/

/-- Cache and store agree on borrows: for every student of the in-memory
list, the row `(id, b)` is in `TRANSACTIONS` exactly when `b` is in the
student's `borrowedBookIds`. -/
def Agreement (st : LibrarySystem) : Prop :=
  ∀ id name bs, User.Student id name bs ∈ st.users →
    ∀ b, (id, b) ∈ st.db.TRANSACTIONS ↔ b ∈ bs

/-- No student of the in-memory list holds a book id twice. -/
def NoDuplicateBorrows (st : LibrarySystem) : Prop :=
  ∀ id name bs, User.Student id name bs ∈ st.users → bs.Nodup

/-- Consistency of store and in-memory lists kept by every operation. -/
structure Inv (st : LibrarySystem) : Prop where
  usersKey : (st.db.USERS.map UserRow.ID).Nodup
  booksKey : (st.db.BOOKS.map BookRow.ID).Nodup
  transKey : st.db.TRANSACTIONS.Nodup
  transUser : ∀ p ∈ st.db.TRANSACTIONS, p.1 ∈ st.db.USERS.map UserRow.ID
  cacheUsersKey : (st.users.map User.getId).Nodup
  cacheUsersSub : ∀ u ∈ st.users, u.getId ∈ st.db.USERS.map UserRow.ID
  cacheBorrowed : ∀ id name bs, User.Student id name bs ∈ st.users →
    bs.Nodup ∧ ∀ b, b ∈ bs ↔ (id, b) ∈ st.db.TRANSACTIONS
  cacheBooksKey : (st.books.map Book.bookId).Nodup
  cacheBooksCopies : ∀ k ∈ st.books,
    ∃ r ∈ st.db.BOOKS, r.ID = k.bookId ∧ toInt32 r.COPIES = k.numberOfCopies.val

/-- Every persisted `COPIES` value is non-negative. -/
def StoreNonneg (st : LibrarySystem) : Prop :=
  ∀ r ∈ st.db.BOOKS, 0 ≤ r.COPIES

/-- Outcome that the ordered checks of the specification prescribe for
`borrowBook(u, b)`: `InvalidUser` when `u` is no user of the in-memory list,
else `InvalidBook` when `b` is no book of the in-memory list, else
`BookNotAvailable` when the persisted copy count of `b` is at most zero, else
"already borrowed" when `(u, b)` is a `TRANSACTIONS` row, else "only students
can borrow" when `u` is a librarian, else success. -/
def borrowOutcomeSpec (st : LibrarySystem) (u b : Int) : Outcome :=
  if u ∉ st.users.map User.getId then .invalidUser
  else if b ∉ st.books.map Book.bookId then .invalidBook
  else if storedCopies st b ≤ 0 then .bookNotAvailable
  else if (u, b) ∈ st.db.TRANSACTIONS then .alreadyBorrowed
  else if (st.findUser u).map User.getRole = some "Librarian" then .onlyStudents
  else .borrowed

/-! ## Sample command sequences -/

/-- A librarian, a student and two copies of book 100. -/
def sampleOps : List Op :=
  [.addLibrarian 1 "Lib", .addStudent 5 "Stu", .addBook 1 100 "Dune" "Herbert" 2]

/-- The scenario of the specification up to the first borrow. -/
def borrowedOps : List Op :=
  sampleOps ++ [.borrowBook 5 100]

/-- A librarian, a student and book 100 with no copy. -/
def zeroOps : List Op :=
  [.addLibrarian 1 "Lib", .addStudent 5 "Stu", .addBook 1 100 "Dune" "Herbert" 0]

/-- The scenario of the specification: add, borrow, borrow again, return,
merge, conflict. -/
def scenarioOps : List Op :=
  [.addLibrarian 1 "Lib", .addStudent 5 "Stu", .addBook 1 100 "Dune" "Herbert" 2,
   .borrowBook 5 100, .borrowBook 5 100, .returnBook 5 100,
   .addBook 1 100 "Dune" "Herbert" 1, .addBook 1 100 "Foundation" "Asimov" 1]

/-- A new book added with a negative `copies` argument. -/
def negativeOps : List Op :=
  [.addLibrarian 1 "Lib", .addBook 1 100 "Dune" "Herbert" (-5)]

/-- One copy added and borrowed, then a merge with `copies = -1`. -/
def takeBackOps : List Op :=
  [.addLibrarian 1 "Lib", .addStudent 5 "Stu", .addBook 1 100 "Dune" "Herbert" 1,
   .borrowBook 5 100, .addBook 1 100 "Dune" "Herbert" (-1)]

/-- A return that lifts the persisted count of book 100 past `INT_MAX`. -/
def overflowOps : List Op :=
  [.addLibrarian 1 "Lib", .addStudent 5 "Stu", .addBook 1 100 "Dune" "Herbert" 2147483647,
   .borrowBook 5 100, .addBook 1 100 "Dune" "Herbert" 1, .returnBook 5 100]

/-! ## Text that rewrites a statement -/

/-- The quote character as a string. -/
def quoteMark : String := String.singleton (Char.ofNat 39)

/-- A name for `addStudent` that closes its literal and the `INSERT INTO
USERS`, carries one further statement and comments out the rest of the text:
`x`, quote, `, `, quote, `Student`, quote, `); `, the statement, ` --`. -/
def smuggle (statement : String) : String :=
  "x" ++ quoteMark ++ ", " ++ quoteMark ++ "Student" ++ quoteMark ++ "); " ++ statement ++ " --"

/-- After `sampleOps`, an `addStudent(6, name)` whose name smuggles an `INSERT
INTO TRANSACTIONS`. -/
def smuggledRecordOps : List Op :=
  sampleOps ++
    [.addStudent 6 (smuggle "INSERT INTO TRANSACTIONS (USER_ID, BOOK_ID) VALUES (5, 100);")]

/-- State the program is in after `smuggledRecordOps`: `sqlite3_exec` has run
the `INSERT INTO USERS` for `(6, x, Student)` and the smuggled `INSERT INTO
TRANSACTIONS` for `(5, 100)`, and `addStudent` has pushed the new student
with the name it was given. -/
def smuggledRecordState : LibrarySystem :=
  { db := { USERS := (stateAfter sampleOps).db.USERS ++ [⟨6, "x", "Student"⟩],
            BOOKS := (stateAfter sampleOps).db.BOOKS,
            TRANSACTIONS := (stateAfter sampleOps).db.TRANSACTIONS ++ [(5, 100)] },
    books := (stateAfter sampleOps).books,
    users := (stateAfter sampleOps).users ++
      [.Student 6 (smuggle "INSERT INTO TRANSACTIONS (USER_ID, BOOK_ID) VALUES (5, 100);") []] }

/-- After `borrowedOps`, an `addStudent(6, name)` whose name smuggles a `DELETE
FROM TRANSACTIONS`. -/
def smuggledDeleteOps : List Op :=
  borrowedOps ++ [.addStudent 6 (smuggle "DELETE FROM TRANSACTIONS;")]

/-- State the program is in after `smuggledDeleteOps`: the store has the user
`(6, x, Student)` and no borrow record, the in-memory lists are those after
`borrowedOps` with the new student pushed. -/
def smuggledDeleteState : LibrarySystem :=
  { db := { USERS := (stateAfter borrowedOps).db.USERS ++ [⟨6, "x", "Student"⟩],
            BOOKS := (stateAfter borrowedOps).db.BOOKS,
            TRANSACTIONS := [] },
    books := (stateAfter borrowedOps).books,
    users := (stateAfter borrowedOps).users ++
      [.Student 6 (smuggle "DELETE FROM TRANSACTIONS;") []] }

/-- After `zeroOps`, an `addStudent(6, name)` whose name smuggles an `UPDATE
BOOKS SET COPIES = 5`. -/
def smuggledUpdateOps : List Op :=
  zeroOps ++ [.addStudent 6 (smuggle "UPDATE BOOKS SET COPIES = 5;")]

/-- State the program is in after `smuggledUpdateOps`: the store has the user
`(6, x, Student)` and `COPIES = 5` for book 100, the in-memory book list still
holds book 100 with no copy. -/
def smuggledUpdateState : LibrarySystem :=
  { db := { USERS := (stateAfter zeroOps).db.USERS ++ [⟨6, "x", "Student"⟩],
            BOOKS := (stateAfter zeroOps).db.BOOKS.map (fun r => { r with COPIES := 5 }),
            TRANSACTIONS := (stateAfter zeroOps).db.TRANSACTIONS },
    books := (stateAfter zeroOps).books,
    users := (stateAfter zeroOps).users ++
      [.Student 6 (smuggle "UPDATE BOOKS SET COPIES = 5;") []] }

/-! ## Lists -/

theorem modifyFirst_map_key {α β : Type} (key : α → β) (p : α → Bool) (f : α → α)
    (hf : ∀ x, key (f x) = key x) (l : List α) :
    (modifyFirst p f l).map key = l.map key := by
  induction l with
  | nil => rfl
  | cons x xs ih =>
    unfold modifyFirst
    split
    · simp [hf]
    · simp [ih]

theorem modifyFirst_eq_map {α κ : Type} [DecidableEq κ] (key : α → κ) (u : κ) (f : α → α)
    (l : List α) (hnd : (l.map key).Nodup) :
    modifyFirst (fun x => decide (key x = u)) f l
      = l.map (fun x => if key x = u then f x else x) := by
  induction l with
  | nil => rfl
  | cons x xs ih =>
    simp only [List.map_cons, List.nodup_cons] at hnd
    unfold modifyFirst
    by_cases hx : key x = u
    · have hxs : xs.map (fun y => if key y = u then f y else y) = xs := by
        conv_rhs => rw [← List.map_id xs]
        apply List.map_congr_left
        intro y hy
        have : key y ≠ u := by
          intro h
          exact hnd.1 (by rw [hx, ← h]; exact List.mem_map_of_mem key hy)
        simp [this]
      simp [hx, hxs]
    · simp [hx, ih hnd.2]

theorem modifyFirst_cancel {α : Type} (p : α → Bool) (f g : α → α) (l : List α) (x : α)
    (h : l.find? p = some x) (hp : p (f x) = true) (hg : g (f x) = x) :
    modifyFirst p g (modifyFirst p f l) = l := by
  induction l with
  | nil => simp at h
  | cons y ys ih =>
    rw [List.find?_cons] at h
    by_cases hy : p y = true
    · simp only [hy] at h
      have hxy : y = x := by simpa using h
      subst hxy
      simp [modifyFirst, hy, hp, hg]
    · have hy2 : p y = false := by simpa using hy
      simp only [hy2] at h
      simp [modifyFirst, hy2, ih h]

theorem find_modifyFirst_same {α : Type} (p : α → Bool) (f : α → α) (l : List α)
    (hp : ∀ x, p x = true → p (f x) = true) :
    (modifyFirst p f l).find? p = (l.find? p).map f := by
  induction l with
  | nil => rfl
  | cons y ys ih =>
    by_cases hy : p y = true
    · simp [modifyFirst, hy, hp y hy]
    · have hy2 : p y = false := by simpa using hy
      simp [modifyFirst, hy2, ih]

theorem filter_modifyFirst_other {α κ : Type} [DecidableEq κ] (key : α → κ) (u : κ) (f : α → α)
    (hf : ∀ x, key (f x) = key x) (l : List α) :
    (modifyFirst (fun x => decide (key x = u)) f l).filter (fun x => decide (key x ≠ u))
      = l.filter (fun x => decide (key x ≠ u)) := by
  induction l with
  | nil => rfl
  | cons y ys ih =>
    by_cases hy : key y = u
    · simp [modifyFirst, hy, hf]
    · simp only [ne_eq, decide_not] at ih
      simp [modifyFirst, hy, ih]

theorem nodup_map_filterMap {α β κ : Type} (f : α → Option β) (keyA : α → κ) (keyB : β → κ)
    (hk : ∀ a b, f a = some b → keyB b = keyA a) (l : List α) :
    (∀ x, x ∈ (l.filterMap f).map keyB → x ∈ l.map keyA) ∧
    ((l.map keyA).Nodup → ((l.filterMap f).map keyB).Nodup) := by
  induction l with
  | nil => simp
  | cons a as ih =>
    cases hfa : f a with
    | none =>
      simp only [List.filterMap_cons, hfa, List.map_cons, List.nodup_cons, List.mem_cons]
      exact ⟨fun x hx => Or.inr (ih.1 x hx), fun h => ih.2 h.2⟩
    | some b =>
      simp only [List.filterMap_cons, hfa, List.map_cons, List.nodup_cons, List.mem_cons]
      refine ⟨?_, ?_⟩
      · intro x hx
        rcases hx with hx | hx
        · exact Or.inl (by rw [hx, hk a b hfa])
        · exact Or.inr (ih.1 x hx)
      · intro h
        refine ⟨?_, ih.2 h.2⟩
        intro hmem
        exact h.1 (by rw [← hk a b hfa]; exact ih.1 _ hmem)

/-! ## Store queries -/

theorem existsUser_iff (db : DBManager) (id : Int) :
    db.existsUser id = true ↔ id ∈ db.USERS.map UserRow.ID := by
  simp [DBManager.existsUser, List.countP_pos_iff]

theorem existsBook_iff (db : DBManager) (id : Int) :
    db.existsBook id = true ↔ id ∈ db.BOOKS.map BookRow.ID := by
  simp [DBManager.existsBook, List.countP_pos_iff]

theorem isBookBorrowed_iff (db : DBManager) (u b : Int) :
    db.isBookBorrowed u b = true ↔ (u, b) ∈ db.TRANSACTIONS := by
  simp only [DBManager.isBookBorrowed, decide_eq_true_eq, List.countP_pos_iff]
  constructor
  · rintro ⟨⟨x, y⟩, hmem, hxy⟩
    simp only [decide_eq_true_eq] at hxy
    obtain ⟨rfl, rfl⟩ := hxy
    exact hmem
  · intro h
    exact ⟨(u, b), h, by simp⟩

theorem toInt32_of_range (x : Int) (h : -2147483648 ≤ x ∧ x ≤ 2147483647) : toInt32 x = x := by
  unfold toInt32; omega

theorem loadBookCallback_some {r : BookRow} {k : Book} (h : loadBookCallback r = some k) :
    k.bookId = r.ID ∧ k.title = r.TITLE ∧ k.author = r.AUTHOR ∧ k.numberOfCopies.val = r.COPIES := by
  unfold loadBookCallback at h
  split at h
  · simp only [Option.some.injEq] at h
    subst h
    exact ⟨rfl, rfl, rfl, rfl⟩
  · simp at h

theorem loadUserRow_getId {db : DBManager} {r : UserRow} {u : User}
    (h : loadUserRow db r = some u) : u.getId = r.ID := by
  unfold loadUserRow at h
  split at h
  · simp only [Option.some.injEq] at h
    subst h; rfl
  · split at h
    · simp only [Option.some.injEq] at h
      subst h; rfl
    · simp at h

theorem mem_selectBorrowed (db : DBManager) (id b : Int) :
    b ∈ db.selectBorrowed id ↔ (id, b) ∈ db.TRANSACTIONS := by
  unfold DBManager.selectBorrowed
  rw [(List.perm_insertionSort _ _).mem_iff]
  simp only [List.mem_map, List.mem_filter, decide_eq_true_eq]
  constructor
  · rintro ⟨⟨x, y⟩, ⟨hmem, hx⟩, hy⟩
    simp only at hx hy
    subst hx; subst hy; exact hmem
  · intro h
    exact ⟨(id, b), ⟨h, rfl⟩, rfl⟩

theorem nodup_selectBorrowed (db : DBManager) (id : Int) (h : db.TRANSACTIONS.Nodup) :
    (db.selectBorrowed id).Nodup := by
  unfold DBManager.selectBorrowed
  rw [(List.perm_insertionSort _ _).nodup_iff]
  apply List.Nodup.map_on
  · intro x hx y hy hxy
    simp only [List.mem_filter, decide_eq_true_eq] at hx hy
    exact Prod.ext (hx.2.trans hy.2.symm) hxy
  · exact h.filter _

theorem loadUserRow_student {db : DBManager} {r : UserRow} {id : Int} {name : String}
    {bs : List Int} (h : loadUserRow db r = some (.Student id name bs)) :
    id = r.ID ∧ bs = db.selectBorrowed r.ID := by
  unfold loadUserRow at h
  split at h
  · simp at h
  · split at h
    · simp only [Option.some.injEq, User.Student.injEq] at h
      exact ⟨h.1.symm, h.2.2.symm⟩
    · simp at h

/-! ## The invariant -/

theorem loadBooks_key (db : DBManager) (h : (db.BOOKS.map BookRow.ID).Nodup) :
    ((loadBooks db).map Book.bookId).Nodup :=
  (nodup_map_filterMap loadBookCallback BookRow.ID Book.bookId
    (fun _ _ hab => (loadBookCallback_some hab).1) db.BOOKS).2 h

theorem loadBooks_copies (db : DBManager) :
    ∀ k ∈ loadBooks db, ∃ r ∈ db.BOOKS, r.ID = k.bookId ∧ toInt32 r.COPIES = k.numberOfCopies.val := by
  intro k hk
  simp only [loadBooks, List.mem_filterMap] at hk
  obtain ⟨r, hr, hrk⟩ := hk
  have h := loadBookCallback_some hrk
  refine ⟨r, hr, h.1.symm, ?_⟩
  rw [← h.2.2.2]
  exact toInt32_of_range _ k.numberOfCopies.property

theorem loadUsers_key (db : DBManager) (h : (db.USERS.map UserRow.ID).Nodup) :
    ((loadUsers db).map User.getId).Nodup :=
  (nodup_map_filterMap (loadUserRow db) UserRow.ID User.getId
    (fun _ _ hab => loadUserRow_getId hab) db.USERS).2 h

theorem loadUsers_sub (db : DBManager) :
    ∀ u ∈ loadUsers db, u.getId ∈ db.USERS.map UserRow.ID := by
  intro u hu
  exact (nodup_map_filterMap (loadUserRow db) UserRow.ID User.getId
    (fun _ _ hab => loadUserRow_getId hab) db.USERS).1 _ (List.mem_map_of_mem _ hu)

theorem loadUsers_borrowed (db : DBManager) (hT : db.TRANSACTIONS.Nodup) :
    ∀ id name bs, User.Student id name bs ∈ loadUsers db →
      bs.Nodup ∧ ∀ b, b ∈ bs ↔ (id, b) ∈ db.TRANSACTIONS := by
  intro id name bs hu
  simp only [loadUsers, List.mem_filterMap] at hu
  obtain ⟨r, _, hru⟩ := hu
  obtain ⟨hid, hbs⟩ := loadUserRow_student hru
  subst hid; subst hbs
  exact ⟨nodup_selectBorrowed _ _ hT, fun b => mem_selectBorrowed _ _ _⟩

theorem Inv.reloadBooks {st : LibrarySystem} (h : Inv st) :
    Inv { st with books := loadBooks st.db } :=
  { h with
    cacheBooksKey := loadBooks_key st.db h.booksKey
    cacheBooksCopies := loadBooks_copies st.db }

theorem Inv.reloadUsers {st : LibrarySystem} (h : Inv st) :
    Inv { st with users := loadUsers st.db } :=
  { h with
    cacheUsersKey := loadUsers_key st.db h.usersKey
    cacheUsersSub := loadUsers_sub st.db
    cacheBorrowed := loadUsers_borrowed st.db h.transKey }

theorem Inv.init : Inv LibrarySystem.init := by
  constructor <;> simp [LibrarySystem.init, LibrarySystem.construct, DBManager.empty, loadBooks, loadUsers]

theorem Inv.construct {st : LibrarySystem} (h : Inv st) : Inv (LibrarySystem.construct st.db) :=
  (h.reloadBooks).reloadUsers

theorem Inv.displayAll {st : LibrarySystem} (h : Inv st) : Inv st.displayAll.2 :=
  (h.reloadBooks).reloadUsers

/-- Effect of a modelled `INSERT INTO USERS`. -/
theorem insertUser_some {db db1 : DBManager} {id : Int} {name role : String}
    (h : db.insertUser id name role = some db1) :
    db1 = { db with USERS := db.USERS ++ [⟨id, name, role⟩] } := by
  unfold DBManager.insertUser at h
  split at h
  · exact (Option.some.inj h).symm
  · cases h

/-- Effect of a modelled `INSERT INTO BOOKS`. -/
theorem insertBook_some {db db1 : DBManager} {id : Int} {t a : String} {c : Int}
    (h : db.insertBook id t a c = some db1) :
    db1 = { db with BOOKS := db.BOOKS ++ [⟨id, t, a, c⟩] } := by
  unfold DBManager.insertBook at h
  split at h
  · exact (Option.some.inj h).symm
  · cases h

/-- A new user appended to store and list keeps the invariant. -/
theorem Inv.appendUser {st : LibrarySystem} (h : Inv st) (id : Int) (name role : String)
    (u : User) (hu : u.getId = id) (hb : ∀ i n bs, u = User.Student i n bs → bs = [])
    (hex : ¬ st.db.existsUser id = true) :
    Inv { st with db := { st.db with USERS := st.db.USERS ++ [⟨id, name, role⟩] },
                  users := st.users ++ [u] } := by
  have hid : id ∉ st.db.USERS.map UserRow.ID := fun hmem => hex ((existsUser_iff _ _).2 hmem)
  have hidc : id ∉ st.users.map User.getId := by
    intro hmem
    obtain ⟨x, hx, rfl⟩ := List.mem_map.1 hmem
    exact hid (h.cacheUsersSub x hx)
  constructor
  · simp only [List.map_append, List.map_cons, List.map_nil]
    exact List.Nodup.append h.usersKey (List.nodup_singleton _) (by simpa using hid)
  · exact h.booksKey
  · exact h.transKey
  · intro p hp
    have := h.transUser p hp
    simp only [List.map_append, List.mem_append]
    exact Or.inl this
  · simp only [List.map_append, List.map_cons, List.map_nil]
    exact List.Nodup.append h.cacheUsersKey (List.nodup_singleton _) (by simpa [hu] using hidc)
  · intro x hx
    simp only [List.map_append, List.mem_append, List.map_cons,
      List.map_nil, List.mem_singleton] at hx ⊢
    rcases hx with hx | hx
    · exact Or.inl (h.cacheUsersSub x hx)
    · subst hx; exact Or.inr hu
  · intro i nm bs hx
    simp only [List.mem_append, List.mem_singleton] at hx
    rcases hx with hx | hx
    · exact h.cacheBorrowed i nm bs hx
    · have hbs := hb i nm bs hx.symm
      subst hbs
      refine ⟨List.nodup_nil, fun b => ?_⟩
      simp only [List.not_mem_nil, false_iff]
      intro hmem
      have hi : i = id := by rw [← hu, ← hx]; rfl
      subst hi
      exact hid (h.transUser _ hmem)
  · exact h.cacheBooksKey
  · exact h.cacheBooksCopies

theorem Inv.addStudent {st : LibrarySystem} (h : Inv st) {id : Int} {name : String}
    {r : Outcome × LibrarySystem} (hr : st.addStudent id name = some r) : Inv r.2 := by
  unfold LibrarySystem.addStudent at hr
  split at hr
  · cases hr; exact h
  · rename_i hex
    cases hins : st.db.insertUser id name "Student" with
    | none => rw [hins] at hr; cases hr
    | some db1 =>
      rw [hins] at hr
      cases hr
      rw [insertUser_some hins]
      exact h.appendUser id name "Student" (.Student id name []) rfl
        (by intro i n bs e; cases e; rfl) hex

theorem Inv.addLibrarian {st : LibrarySystem} (h : Inv st) {id : Int} {name : String}
    {r : Outcome × LibrarySystem} (hr : st.addLibrarian id name = some r) : Inv r.2 := by
  unfold LibrarySystem.addLibrarian at hr
  split at hr
  · cases hr; exact h
  · rename_i hex
    cases hins : st.db.insertUser id name "Librarian" with
    | none => rw [hins] at hr; cases hr
    | some db1 =>
      rw [hins] at hr
      cases hr
      rw [insertUser_some hins]
      exact h.appendUser id name "Librarian" (.Librarian id name) rfl
        (by intro i n bs e; cases e) hex

theorem find_of_nodup_key {α κ : Type} [DecidableEq κ] (key : α → κ) (l : List α)
    (hnd : (l.map key).Nodup) (r : α) (hr : r ∈ l) :
    l.find? (fun x => decide (key x = key r)) = some r := by
  induction l with
  | nil => simp at hr
  | cons y ys ih =>
    simp only [List.map_cons, List.nodup_cons] at hnd
    rw [List.find?_cons]
    rcases List.mem_cons.1 hr with rfl | hmem
    · simp
    · have hne : key y ≠ key r := by
        intro heq
        exact hnd.1 (by rw [heq]; exact List.mem_map_of_mem key hmem)
      simp [hne, ih hnd.2 hmem]

theorem findUser_some {st : LibrarySystem} {u : Int} {x : User} (h : st.findUser u = some x) :
    x ∈ st.users ∧ x.getId = u := by
  unfold LibrarySystem.findUser at h
  exact ⟨List.mem_of_find?_eq_some h, by simpa using List.find?_some h⟩

theorem findBook_some {st : LibrarySystem} {b : Int} {k : Book} (h : st.findBook b = some k) :
    k ∈ st.books ∧ k.bookId = b := by
  unfold LibrarySystem.findBook at h
  exact ⟨List.mem_of_find?_eq_some h, by simpa using List.find?_some h⟩

theorem getId_borrowBook (b : Int) (x : User) : (x.borrowBook b).getId = x.getId := by
  cases x <;> rfl

theorem getId_returnBook (b : Int) (x : User) : (x.returnBook b).getId = x.getId := by
  cases x <;> rfl

theorem bookId_decreaseCopy (k : Book) : k.decreaseCopy.bookId = k.bookId := by
  unfold Book.decreaseCopy; split <;> rfl

theorem bookId_increaseCopy (k : Book) : k.increaseCopy.bookId = k.bookId := rfl

theorem updateCopies_key (db : DBManager) (b d : Int) :
    (db.updateCopies b d).BOOKS.map BookRow.ID = db.BOOKS.map BookRow.ID := by
  simp only [DBManager.updateCopies, List.map_map]
  apply List.map_congr_left
  intro r _
  simp only [Function.comp]
  split <;> rfl

/-- Stored row matching a cached book, as read by the scalar query. -/
theorem Inv.scalar_of_cached {st : LibrarySystem} (h : Inv st) {k : Book} (hk : k ∈ st.books) :
    st.db.getScalarCopies k.bookId = k.numberOfCopies.val ∧
    st.db.selectCopies k.bookId ≠ none := by
  obtain ⟨r, hr, hid, hc⟩ := h.cacheBooksCopies k hk
  have hf := find_of_nodup_key BookRow.ID st.db.BOOKS h.booksKey r hr
  rw [hid] at hf
  simp [DBManager.getScalarCopies, DBManager.selectCopies, DBManager.selectBook, hf, hc]

theorem Inv.borrowBook {st : LibrarySystem} (h : Inv st) (u b : Int) :
    Inv (st.borrowBook u b).2 := by
  unfold LibrarySystem.borrowBook
  cases hfu : st.findUser u with
  | none => exact h
  | some user =>
    cases hfb : st.findBook b with
    | none => exact h
    | some k =>
      simp only []
      split
      · exact h
      · rename_i hcop
        split
        · exact h
        · rename_i hbor
          cases user with
          | Librarian uid nm => exact h
          | Student uid nm bs =>
            have hu := findUser_some hfu
            have hk := findBook_some hfb
            have hnot : (u, b) ∉ st.db.TRANSACTIONS := fun hm => hbor ((isBookBorrowed_iff _ _ _).2 hm)
            have hsc := (h.scalar_of_cached hk.1).1
            rw [hk.2] at hsc
            simp only []
            constructor
            · exact h.usersKey
            · rw [updateCopies_key]; exact h.booksKey
            · simp only [DBManager.updateCopies, DBManager.insertTransaction]
              exact List.Nodup.append h.transKey (List.nodup_singleton _) (by simpa using hnot)
            · intro p hp
              simp only [DBManager.updateCopies, DBManager.insertTransaction, List.mem_append,
                List.mem_singleton] at hp ⊢
              rcases hp with hp | rfl
              · exact h.transUser p hp
              · have := h.cacheUsersSub _ hu.1
                rw [hu.2] at this
                exact this
            · rw [modifyFirst_map_key User.getId _ _ (getId_borrowBook b)]
              exact h.cacheUsersKey
            · intro x hx
              have hx2 := List.mem_map_of_mem User.getId hx
              rw [modifyFirst_map_key User.getId _ _ (getId_borrowBook b)] at hx2
              obtain ⟨y, hy, hyx⟩ := List.mem_map.1 hx2
              rw [← hyx]
              exact h.cacheUsersSub y hy
            · intro i n bs2 hx
              rw [modifyFirst_eq_map User.getId u _ _ h.cacheUsersKey] at hx
              obtain ⟨y, hy, hyx⟩ := List.mem_map.1 hx
              simp only [DBManager.updateCopies, DBManager.insertTransaction, List.mem_append,
                List.mem_singleton, Prod.mk.injEq]
              by_cases hyu : y.getId = u
              · rw [if_pos hyu] at hyx
                cases y with
                | Librarian yi yn => simp [User.borrowBook] at hyx
                | Student yi yn ybs =>
                  simp only [User.borrowBook, User.Student.injEq] at hyx
                  obtain ⟨rfl, rfl, rfl⟩ := hyx
                  simp only [User.getId] at hyu
                  subst hyu
                  obtain ⟨hnd, hiff⟩ := h.cacheBorrowed _ _ _ hy
                  refine ⟨?_, fun b2 => ?_⟩
                  · exact List.Nodup.append hnd (List.nodup_singleton _)
                      (by simpa using fun hm => hnot ((hiff b).1 hm))
                  · simp [hiff b2]
              · rw [if_neg hyu] at hyx
                subst hyx
                obtain ⟨hnd, hiff⟩ := h.cacheBorrowed _ _ _ hy
                simp only [User.getId] at hyu
                refine ⟨hnd, fun b2 => ?_⟩
                simp [hiff b2, hyu]
            · rw [modifyFirst_map_key Book.bookId _ _ bookId_decreaseCopy]
              exact h.cacheBooksKey
            · intro x hx
              rw [modifyFirst_eq_map Book.bookId b _ _ h.cacheBooksKey] at hx
              obtain ⟨y, hy, hyx⟩ := List.mem_map.1 hx
              obtain ⟨r, hr, hid, hc⟩ := h.cacheBooksCopies y hy
              simp only [DBManager.updateCopies, DBManager.insertTransaction, List.mem_map]
              by_cases hyb : y.bookId = b
              · rw [if_pos hyb] at hyx
                have hsy := (h.scalar_of_cached hy).1
                rw [hyb] at hsy
                have hpos : 0 < y.numberOfCopies.val := by rw [← hsy]; omega
                refine ⟨_, ⟨r, hr, rfl⟩, ?_⟩
                rw [if_pos (hid.trans hyb)]
                subst hyx
                refine ⟨by simp [bookId_decreaseCopy, hid], ?_⟩
                simp only [Book.decreaseCopy, dif_pos hpos]
                rw [← hc] at hpos ⊢
                unfold toInt32 at hpos ⊢
                omega
              · rw [if_neg hyb] at hyx
                subst hyx
                refine ⟨_, ⟨r, hr, rfl⟩, ?_⟩
                rw [if_neg (by rw [hid]; exact hyb)]
                exact ⟨hid, hc⟩

theorem Inv.returnBook {st : LibrarySystem} (h : Inv st) (u b : Int) :
    Inv (st.returnBook u b).2 := by
  unfold LibrarySystem.returnBook
  cases hfu : st.findUser u with
  | none => exact h
  | some user =>
    cases hfb : st.findBook b with
    | none => exact h
    | some k =>
      simp only []
      split
      · exact h
      · cases user with
        | Librarian uid nm => exact h
        | Student uid nm bs =>
          simp only []
          constructor
          · exact h.usersKey
          · rw [updateCopies_key]; exact h.booksKey
          · simp only [DBManager.updateCopies, DBManager.deleteTransaction]
            exact h.transKey.filter _
          · intro p hp
            simp only [DBManager.updateCopies, DBManager.deleteTransaction, List.mem_filter] at hp ⊢
            exact h.transUser p hp.1
          · rw [modifyFirst_map_key User.getId _ _ (getId_returnBook b)]
            exact h.cacheUsersKey
          · intro x hx
            have hx2 := List.mem_map_of_mem User.getId hx
            rw [modifyFirst_map_key User.getId _ _ (getId_returnBook b)] at hx2
            obtain ⟨y, hy, hyx⟩ := List.mem_map.1 hx2
            rw [← hyx]
            exact h.cacheUsersSub y hy
          · intro i n bs2 hx
            rw [modifyFirst_eq_map User.getId u _ _ h.cacheUsersKey] at hx
            obtain ⟨y, hy, hyx⟩ := List.mem_map.1 hx
            simp only [DBManager.updateCopies, DBManager.deleteTransaction, List.mem_filter,
              decide_eq_true_eq, decide_not, Bool.not_eq_true', decide_eq_false_iff_not]
            by_cases hyu : y.getId = u
            · rw [if_pos hyu] at hyx
              cases y with
              | Librarian yi yn => simp [User.returnBook] at hyx
              | Student yi yn ybs =>
                simp only [User.returnBook, User.Student.injEq] at hyx
                obtain ⟨rfl, rfl, rfl⟩ := hyx
                simp only [User.getId] at hyu
                subst hyu
                obtain ⟨hnd, hiff⟩ := h.cacheBorrowed _ _ _ hy
                refine ⟨hnd.erase b, fun b2 => ?_⟩
                rw [hnd.mem_erase_iff, hiff b2]
                simp [and_comm]
            · rw [if_neg hyu] at hyx
              subst hyx
              obtain ⟨hnd, hiff⟩ := h.cacheBorrowed _ _ _ hy
              simp only [User.getId] at hyu
              refine ⟨hnd, fun b2 => ?_⟩
              simp [hiff b2, hyu]
          · rw [modifyFirst_map_key Book.bookId _ _ bookId_increaseCopy]
            exact h.cacheBooksKey
          · intro x hx
            rw [modifyFirst_eq_map Book.bookId b _ _ h.cacheBooksKey] at hx
            obtain ⟨y, hy, hyx⟩ := List.mem_map.1 hx
            obtain ⟨r, hr, hid, hc⟩ := h.cacheBooksCopies y hy
            simp only [DBManager.updateCopies, DBManager.deleteTransaction, List.mem_map]
            by_cases hyb : y.bookId = b
            · rw [if_pos hyb] at hyx
              refine ⟨_, ⟨r, hr, rfl⟩, ?_⟩
              rw [if_pos (hid.trans hyb)]
              subst hyx
              refine ⟨by simp [bookId_increaseCopy, hid], ?_⟩
              simp only [Book.increaseCopy, CInt.wrap]
              rw [← hc]
              unfold toInt32
              omega
            · rw [if_neg hyb] at hyx
              subst hyx
              refine ⟨_, ⟨r, hr, rfl⟩, ?_⟩
              rw [if_neg (by rw [hid]; exact hyb)]
              exact ⟨hid, hc⟩

/-- The four branches of a modelled `addBook`. -/
theorem addBook_cases {st : LibrarySystem} {u b : Int} {t a : String} {c : Int}
    {r : Outcome × LibrarySystem} (hr : st.addBook u b t a c = some r) :
    r = (.permissionDenied, st) ∨
    r = (.titleConflict, st) ∨
    (st.db.existsBook b = true ∧ st.db.getStringTitle b = t ∧
      r = (.copiesIncreased,
        { st with db := st.db.updateCopies b c, books := loadBooks (st.db.updateCopies b c) })) ∨
    (st.db.existsBook b = false ∧
      r = (.bookAdded,
        { st with db := { st.db with BOOKS := st.db.BOOKS ++ [⟨b, t, a, c⟩] },
                  books := loadBooks { st.db with BOOKS := st.db.BOOKS ++ [⟨b, t, a, c⟩] } })) := by
  unfold LibrarySystem.addBook at hr
  cases hfu : st.findUser u with
  | none =>
    rw [hfu] at hr
    exact Or.inl (Option.some.inj hr).symm
  | some user =>
    rw [hfu] at hr
    simp only [] at hr
    by_cases hrole : user.getRole ≠ "Librarian"
    · rw [if_pos hrole] at hr
      exact Or.inl (Option.some.inj hr).symm
    · rw [if_neg hrole] at hr
      by_cases hex : st.db.existsBook b = true
      · rw [if_pos hex] at hr
        by_cases ht : st.db.getStringTitle b = t
        · rw [if_pos ht] at hr
          exact Or.inr (Or.inr (Or.inl ⟨hex, ht, (Option.some.inj hr).symm⟩))
        · rw [if_neg ht] at hr
          exact Or.inr (Or.inl (Option.some.inj hr).symm)
      · rw [if_neg hex] at hr
        cases hins : st.db.insertBook b t a c with
        | none => rw [hins] at hr; cases hr
        | some db1 =>
          rw [hins] at hr
          have hdb := insertBook_some hins
          subst hdb
          exact Or.inr (Or.inr (Or.inr ⟨by simpa using hex, (Option.some.inj hr).symm⟩))

/-- An `addBook` by a librarian, spelled out. -/
theorem addBook_librarian {st : LibrarySystem} {l : Int} {nm : String}
    (hl : st.findUser l = some (.Librarian l nm)) (b : Int) (t a : String) (c : Int) :
    st.addBook l b t a c =
      if st.db.existsBook b = true then
        if st.db.getStringTitle b = t then
          some (.copiesIncreased,
            { st with db := st.db.updateCopies b c, books := loadBooks (st.db.updateCopies b c) })
        else some (.titleConflict, st)
      else
        match st.db.insertBook b t a c with
        | none => none
        | some db1 => some (.bookAdded, { st with db := db1, books := loadBooks db1 }) := by
  unfold LibrarySystem.addBook
  rw [hl]
  simp [User.getRole]

theorem Inv.addBook {st : LibrarySystem} (h : Inv st) {u b : Int} {t a : String} {c : Int}
    {r : Outcome × LibrarySystem} (hr : st.addBook u b t a c = some r) : Inv r.2 := by
  rcases addBook_cases hr with rfl | rfl | ⟨_, _, rfl⟩ | ⟨hex, rfl⟩
  · exact h
  · exact h
  · have hkey : ((st.db.updateCopies b c).BOOKS.map BookRow.ID).Nodup := by
      rw [updateCopies_key]; exact h.booksKey
    exact { h with
      booksKey := hkey
      cacheBooksKey := loadBooks_key _ hkey
      cacheBooksCopies := loadBooks_copies _ }
  · have hb : b ∉ st.db.BOOKS.map BookRow.ID := by
      intro hm
      rw [(existsBook_iff _ _).2 hm] at hex
      cases hex
    have hkey : ((st.db.BOOKS ++ [(⟨b, t, a, c⟩ : BookRow)]).map BookRow.ID).Nodup := by
      simp only [List.map_append, List.map_cons, List.map_nil]
      exact List.Nodup.append h.booksKey (List.nodup_singleton _) (by simpa using hb)
    exact { h with
      booksKey := hkey
      cacheBooksKey := loadBooks_key _ hkey
      cacheBooksCopies := loadBooks_copies _ }

theorem Inv.step {st : LibrarySystem} (h : Inv st) {op : Op} {r : Outcome × LibrarySystem}
    (hr : Library.step st op = some r) : Inv r.2 := by
  cases op with
  | addLibrarian id name => exact h.addLibrarian hr
  | addStudent id name => exact h.addStudent hr
  | addBook u b t a c => exact h.addBook hr
  | borrowBook u b =>
    cases (Option.some.inj hr)
    exact h.borrowBook u b
  | returnBook u b =>
    cases (Option.some.inj hr)
    exact h.returnBook u b
  | displayAll =>
    cases (Option.some.inj hr)
    exact h.displayAll

theorem Inv.run {st st2 : LibrarySystem} (h : Inv st) {ops : List Op}
    (hr : Library.run st ops = some st2) : Inv st2 := by
  induction ops generalizing st with
  | nil =>
    cases (Option.some.inj hr)
    exact h
  | cons op ops ih =>
    simp only [Library.run] at hr
    cases hs : Library.step st op with
    | none => rw [hs] at hr; cases hr
    | some r =>
      rw [hs] at hr
      exact ih (h.step hs) hr

/-- A command with safe text stays inside the model. -/
theorem step_defined (st : LibrarySystem) (op : Op) (h : op.textSafe = true) :
    ∃ r, step st op = some r := by
  cases op with
  | addLibrarian id name =>
    simp only [Op.textSafe] at h
    simp only [step, LibrarySystem.addLibrarian, DBManager.insertUser, h, if_true]
    split <;> exact ⟨_, rfl⟩
  | addStudent id name =>
    simp only [Op.textSafe] at h
    simp only [step, LibrarySystem.addStudent, DBManager.insertUser, h, if_true]
    split <;> exact ⟨_, rfl⟩
  | addBook u b t a c =>
    simp only [Op.textSafe, Bool.and_eq_true] at h
    simp only [step, LibrarySystem.addBook, DBManager.insertBook, h, and_self, if_true]
    split
    · exact ⟨_, rfl⟩
    · split
      · exact ⟨_, rfl⟩
      · split
        · split <;> exact ⟨_, rfl⟩
        · exact ⟨_, rfl⟩
  | borrowBook u b => exact ⟨_, rfl⟩
  | returnBook u b => exact ⟨_, rfl⟩
  | displayAll => exact ⟨_, rfl⟩

/-- A command sequence with safe text stays inside the model. -/
theorem run_defined (st : LibrarySystem) (ops : List Op) (h : ∀ op ∈ ops, op.textSafe = true) :
    ∃ st2, run st ops = some st2 := by
  induction ops generalizing st with
  | nil => exact ⟨st, rfl⟩
  | cons op ops ih =>
    obtain ⟨r, hr⟩ := step_defined st op (h op (List.mem_cons_self _ _))
    obtain ⟨st2, h2⟩ := ih r.2 (fun o ho => h o (List.mem_cons_of_mem _ ho))
    exact ⟨st2, by simp only [run, hr]; exact h2⟩

/-! ## Borrowing and returning -/

/-- State written by the success branch of `borrowBook`. -/
theorem borrowBook_success {st : LibrarySystem} {u b : Int}
    (h : (st.borrowBook u b).1 = .borrowed) :
    ∃ nm bs k, st.findUser u = some (.Student u nm bs) ∧ st.findBook b = some k ∧
      0 < st.db.getScalarCopies b ∧ (u, b) ∉ st.db.TRANSACTIONS ∧
      (st.borrowBook u b).2 =
        { db := (st.db.insertTransaction u b).updateCopies b (-1),
          users := modifyFirst (fun x => x.getId = u) (User.borrowBook b) st.users,
          books := modifyFirst (fun k => k.bookId = b) Book.decreaseCopy st.books } := by
  unfold LibrarySystem.borrowBook at h ⊢
  cases hfu : st.findUser u with
  | none => simp [hfu] at h
  | some user =>
    cases hfb : st.findBook b with
    | none => simp [hfu, hfb] at h
    | some k =>
      simp only [hfu, hfb] at h ⊢
      by_cases hcop : st.db.getScalarCopies b ≤ 0
      · simp [hcop] at h
      · by_cases hbor : st.db.isBookBorrowed u b = true
        · simp [hcop, hbor] at h
        · cases user with
          | Librarian uid nm => simp [hcop, hbor] at h
          | Student uid nm bs =>
            have hu := (findUser_some hfu).2
            simp only [User.getId] at hu
            subst hu
            refine ⟨nm, bs, k, rfl, rfl, by omega, ?_, ?_⟩
            · exact fun hm => hbor ((isBookBorrowed_iff _ _ _).2 hm)
            · simp [hcop, hbor]

theorem updateCopies_cancel (db : DBManager) (b d : Int) :
    ((db.updateCopies b d).updateCopies b (-d)).BOOKS = db.BOOKS := by
  simp only [DBManager.updateCopies, List.map_map]
  conv_rhs => rw [← List.map_id db.BOOKS]
  apply List.map_congr_left
  intro r _
  simp only [Function.comp, id]
  by_cases hr : r.ID = b
  · cases r
    simp_all
  · simp [hr]

theorem increase_decrease (k : Book) (h : 0 < k.numberOfCopies.val) :
    k.decreaseCopy.increaseCopy = k := by
  unfold Book.decreaseCopy
  split
  · cases k with
    | mk i t a n =>
      have hp := n.property
      simp only [Book.increaseCopy, CInt.wrap, Book.mk.injEq, true_and]
      apply Subtype.ext
      simp only [toInt32]
      simp only at h
      omega
  · contradiction

/-- Round trip on any consistent state. -/
theorem Inv.roundtrip {st : LibrarySystem} (h : Inv st) {u b : Int}
    (hb : (st.borrowBook u b).1 = .borrowed) :
    (st.borrowBook u b).2.returnBook u b = (.returned, st) := by
  obtain ⟨nm, bs, k, hfu, hfb, hcop, hnot, hst⟩ := borrowBook_success hb
  rw [hst]
  have hkmem := findBook_some hfb
  have hsc := (h.scalar_of_cached hkmem.1).1
  rw [hkmem.2] at hsc
  have hkpos : 0 < k.numberOfCopies.val := by rw [← hsc]; exact hcop
  have hbs : b ∉ bs := fun hm =>
    hnot (((h.cacheBorrowed u nm bs (findUser_some hfu).1).2 b).1 hm)
  have hfu2 : LibrarySystem.findUser
      { db := (st.db.insertTransaction u b).updateCopies b (-1),
        users := modifyFirst (fun x => x.getId = u) (User.borrowBook b) st.users,
        books := modifyFirst (fun k => k.bookId = b) Book.decreaseCopy st.books } u
      = some (.Student u nm (bs ++ [b])) := by
    unfold LibrarySystem.findUser at hfu ⊢
    simp only []
    rw [find_modifyFirst_same _ _ _ (by intro x hx; simpa [getId_borrowBook] using hx), hfu]
    rfl
  have hfb2 : LibrarySystem.findBook
      { db := (st.db.insertTransaction u b).updateCopies b (-1),
        users := modifyFirst (fun x => x.getId = u) (User.borrowBook b) st.users,
        books := modifyFirst (fun k => k.bookId = b) Book.decreaseCopy st.books } b
      = some k.decreaseCopy := by
    unfold LibrarySystem.findBook at hfb ⊢
    simp only []
    rw [find_modifyFirst_same _ _ _ (by intro x hx; simpa [bookId_decreaseCopy] using hx), hfb]
    rfl
  have hbor2 : ((st.db.insertTransaction u b).updateCopies b (-1)).isBookBorrowed u b = true := by
    rw [isBookBorrowed_iff]
    simp [DBManager.updateCopies, DBManager.insertTransaction]
  unfold LibrarySystem.returnBook
  rw [hfu2, hfb2]
  simp only [hbor2, not_true_eq_false, if_false, Prod.mk.injEq, true_and]
  have hdb : ((((st.db.insertTransaction u b).updateCopies b (-1)).deleteTransaction u b).updateCopies b 1)
      = st.db := by
    have h1 := updateCopies_cancel st.db b (-1)
    simp only [neg_neg] at h1
    have hT : List.filter (fun p : Int × Int => decide (¬ (p.1 = u ∧ p.2 = b)))
        (st.db.TRANSACTIONS ++ [(u, b)]) = st.db.TRANSACTIONS := by
      rw [List.filter_append]
      have : List.filter (fun p : Int × Int => decide (¬ (p.1 = u ∧ p.2 = b))) st.db.TRANSACTIONS
          = st.db.TRANSACTIONS := by
        rw [List.filter_eq_self]
        intro p hp
        simp only [decide_eq_true_eq]
        rintro ⟨h1, h2⟩
        exact hnot (by rw [← h1, ← h2]; exact hp)
      rw [this]
      simp
    cases hdbeq : st.db with
    | mk U B T =>
      rw [hdbeq] at h1 hT
      simp only [DBManager.updateCopies, DBManager.insertTransaction, DBManager.deleteTransaction] at h1 hT ⊢
      rw [h1, hT]
  have husers : modifyFirst (fun x => decide (x.getId = u)) (User.returnBook b)
      (modifyFirst (fun x => decide (x.getId = u)) (User.borrowBook b) st.users) = st.users := by
    apply modifyFirst_cancel _ _ _ _ (User.Student u nm bs) hfu
    · simp [User.borrowBook, User.getId]
    · simp only [User.borrowBook, User.returnBook, User.Student.injEq, true_and]
      rw [List.erase_append_right _ hbs]
      simp
  have hbooks : modifyFirst (fun x => decide (x.bookId = b)) Book.increaseCopy
      (modifyFirst (fun x => decide (x.bookId = b)) Book.decreaseCopy st.books) = st.books := by
    apply modifyFirst_cancel _ _ _ _ k hfb
    · simp [bookId_decreaseCopy, hkmem.2]
    · exact increase_decrease k hkpos
  rw [hdb, husers, hbooks]

/-- State left by any branch of `borrowBook` other than success. -/
theorem borrowBook_unchanged {st : LibrarySystem} {u b : Int}
    (h : (st.borrowBook u b).1 ≠ .borrowed) : (st.borrowBook u b).2 = st := by
  unfold LibrarySystem.borrowBook at h ⊢
  cases hfu : st.findUser u with
  | none => rfl
  | some user =>
    cases hfb : st.findBook b with
    | none => rfl
    | some k =>
      simp only [hfu, hfb] at h ⊢
      by_cases hcop : st.db.getScalarCopies b ≤ 0
      · simp [hcop]
      · by_cases hbor : st.db.isBookBorrowed u b = true
        · simp [hcop, hbor]
        · cases user with
          | Librarian uid nm => simp [hcop, hbor]
          | Student uid nm bs => simp [hcop, hbor] at h

/-- State written by the success branch of `returnBook`. -/
theorem returnBook_success {st : LibrarySystem} {u b : Int}
    (h : (st.returnBook u b).1 = .returned) :
    ∃ nm bs k, st.findUser u = some (.Student u nm bs) ∧ st.findBook b = some k ∧
      (u, b) ∈ st.db.TRANSACTIONS ∧
      (st.returnBook u b).2 =
        { db := (st.db.deleteTransaction u b).updateCopies b 1,
          users := modifyFirst (fun x => x.getId = u) (User.returnBook b) st.users,
          books := modifyFirst (fun k => k.bookId = b) Book.increaseCopy st.books } := by
  unfold LibrarySystem.returnBook at h ⊢
  cases hfu : st.findUser u with
  | none => simp [hfu] at h
  | some user =>
    cases hfb : st.findBook b with
    | none => simp [hfu, hfb] at h
    | some k =>
      simp only [hfu, hfb] at h ⊢
      by_cases hbor : st.db.isBookBorrowed u b = true
      · cases user with
        | Librarian uid nm => simp [hbor] at h
        | Student uid nm bs =>
          have hu := (findUser_some hfu).2
          simp only [User.getId] at hu
          subst hu
          refine ⟨nm, bs, k, rfl, rfl, (isBookBorrowed_iff _ _ _).1 hbor, ?_⟩
          simp [hbor]
      · simp [hbor] at h

/-- State left by any branch of `returnBook` other than success. -/
theorem returnBook_unchanged {st : LibrarySystem} {u b : Int}
    (h : (st.returnBook u b).1 ≠ .returned) : (st.returnBook u b).2 = st := by
  unfold LibrarySystem.returnBook at h ⊢
  cases hfu : st.findUser u with
  | none => rfl
  | some user =>
    cases hfb : st.findBook b with
    | none => rfl
    | some k =>
      simp only [hfu, hfb] at h ⊢
      by_cases hbor : st.db.isBookBorrowed u b = true
      · cases user with
        | Librarian uid nm => simp [hbor]
        | Student uid nm bs => simp [hbor] at h
      · simp [hbor]

/-! ## Runs inside the model -/

/-- The scenario of the specification, step by step: two copies, one after the
borrow, still one after the refused second borrow, two after the return,
three after the merge, three after the refused title. -/
theorem scenario_example :
    run LibrarySystem.init scenarioOps = some (stateAfter scenarioOps) ∧
    (stateAfter (scenarioOps.take 3)).db.selectCopies 100 = some 2 ∧
    (stateAfter (scenarioOps.take 4)).db.selectCopies 100 = some 1 ∧
    (stateAfter (scenarioOps.take 4)).findUser 5 = some (.Student 5 "Stu" [100]) ∧
    ((stateAfter (scenarioOps.take 4)).borrowBook 5 100).1 = .alreadyBorrowed ∧
    (stateAfter (scenarioOps.take 5)).db.selectCopies 100 = some 1 ∧
    (stateAfter (scenarioOps.take 6)).db.selectCopies 100 = some 2 ∧
    (stateAfter (scenarioOps.take 6)).findUser 5 = some (.Student 5 "Stu" []) ∧
    (stateAfter (scenarioOps.take 7)).db.selectCopies 100 = some 3 ∧
    ((stateAfter (scenarioOps.take 7)).addBook 1 100 "Foundation" "Asimov" 1).map Prod.fst
      = some .titleConflict ∧
    (stateAfter scenarioOps).db.selectCopies 100 = some 3 ∧
    ((stateAfter scenarioOps).findBook 100).map Book.getCopies = some 3 := by
  decide

/-- The sample sequences stay inside the model. -/
theorem sample_runs_defined :
    run LibrarySystem.init sampleOps = some (stateAfter sampleOps) ∧
    run LibrarySystem.init borrowedOps = some (stateAfter borrowedOps) ∧
    run LibrarySystem.init zeroOps = some (stateAfter zeroOps) ∧
    run LibrarySystem.init negativeOps = some (stateAfter negativeOps) ∧
    run LibrarySystem.init takeBackOps = some (stateAfter takeBackOps) ∧
    run LibrarySystem.init overflowOps = some (stateAfter overflowOps) := by
  decide

/-- Inside the model, cache and store agree on borrows: in every state reached
by a modelled command sequence from a system constructed on the store left by
a modelled history. -/
theorem agreement_of_run {history ops : List Op} {st0 st : LibrarySystem}
    (h0 : run LibrarySystem.init history = some st0)
    (h1 : run (LibrarySystem.construct st0.db) ops = some st) : Agreement st := by
  have h : Inv st := Inv.run (Inv.construct (Inv.run Inv.init h0)) h1
  intro id name bs hmem b
  exact ((h.cacheBorrowed id name bs hmem).2 b).symm

/-- Inside the model, no student holds a book id twice. -/
theorem noDuplicateBorrows_of_run {ops : List Op} {st : LibrarySystem}
    (h1 : run LibrarySystem.init ops = some st) : NoDuplicateBorrows st := by
  have h : Inv st := Inv.run Inv.init h1
  intro id name bs hmem
  exact (h.cacheBorrowed id name bs hmem).1

/-- Inside the model, a successful borrow followed by the return gives back
the state before the borrow. -/
theorem roundtrip_of_run {ops : List Op} {st : LibrarySystem} (s b : Int)
    (h1 : run LibrarySystem.init ops = some st)
    (hb : (st.borrowBook s b).1 = .borrowed) :
    (st.borrowBook s b).2.returnBook s b = (.returned, st) :=
  Inv.roundtrip (Inv.run Inv.init h1) hb

/-! ## Claims broken by text spliced into a statement -/

/-- C1, evaluated at the failing input `smuggledRecordOps`: the command
sequence is outside the model, and in the state the program is left in the
row `(5, 100)` is in `TRANSACTIONS` while student 5 holds no book in the
in-memory list, `borrowBook(5, 100)` answers "already borrowed", and cache and
store do not agree. -/
theorem C1_failing_input :
    run LibrarySystem.init smuggledRecordOps = none ∧
    (5, 100) ∈ smuggledRecordState.db.TRANSACTIONS ∧
    smuggledRecordState.findUser 5 = some (.Student 5 "Stu" []) ∧
    (smuggledRecordState.borrowBook 5 100).1 = .alreadyBorrowed ∧
    ¬ Agreement smuggledRecordState := by
  refine ⟨by decide, by decide, by decide, by decide, ?_⟩
  intro h
  have hmem : User.Student 5 "Stu" [] ∈ smuggledRecordState.users := by decide
  have h2 := (h 5 "Stu" [] hmem 100).1 (by decide)
  cases h2

/-- C3, evaluated at the failing input `smuggledDeleteOps` followed by
`borrowBook(5, 100)`: the command sequence is outside the model, and in the
state the program is left in student 5 still holds book 100 while the store
has no record; `borrowBook(5, 100)` succeeds again and the student's list is
`[100, 100]`. -/
theorem C3_failing_input :
    run LibrarySystem.init smuggledDeleteOps = none ∧
    smuggledDeleteState.findUser 5 = some (.Student 5 "Stu" [100]) ∧
    (smuggledDeleteState.borrowBook 5 100).1 = .borrowed ∧
    (smuggledDeleteState.borrowBook 5 100).2.findUser 5 = some (.Student 5 "Stu" [100, 100]) ∧
    ¬ NoDuplicateBorrows (smuggledDeleteState.borrowBook 5 100).2 := by
  refine ⟨by decide, by decide, by decide, by decide, ?_⟩
  intro h
  have hmem : User.Student 5 "Stu" [100, 100] ∈ (smuggledDeleteState.borrowBook 5 100).2.users := by
    decide
  have h2 := h 5 "Stu" [100, 100] hmem
  exact absurd h2 (by decide)

/-- C5, evaluated at the failing input `smuggledUpdateOps` followed by
`borrowBook(5, 100)` and `returnBook(5, 100)`: the command sequence is outside
the model, and in the state the program is left in the store holds 5 copies of
book 100 and the in-memory list none; the borrow succeeds, the guarded
`decreaseCopy` leaves the cached count at 0, and the return lifts it to 1, so
the state after the return is not the state before the borrow. -/
theorem C5_failing_input :
    run LibrarySystem.init smuggledUpdateOps = none ∧
    smuggledUpdateState.db.selectCopies 100 = some 5 ∧
    (smuggledUpdateState.findBook 100).map Book.getCopies = some 0 ∧
    (smuggledUpdateState.borrowBook 5 100).1 = .borrowed ∧
    ((smuggledUpdateState.borrowBook 5 100).2.returnBook 5 100).1 = .returned ∧
    (((smuggledUpdateState.borrowBook 5 100).2.returnBook 5 100).2.findBook 100).map
      Book.getCopies = some 1 ∧
    ((smuggledUpdateState.borrowBook 5 100).2.returnBook 5 100).2 ≠ smuggledUpdateState := by
  decide

/-! ## Copy counts -/

theorem find_updateCopies (B : List BookRow) (b d x : Int) :
    (B.map (fun r => if r.ID = b then { r with COPIES := r.COPIES + d } else r)).find?
        (fun r => decide (r.ID = x))
      = (B.find? (fun r => decide (r.ID = x))).map
        (fun r => if r.ID = b then { r with COPIES := r.COPIES + d } else r) := by
  induction B with
  | nil => rfl
  | cons r rs ih =>
    simp only [List.map_cons, List.find?_cons]
    have hid : (if r.ID = b then { r with COPIES := r.COPIES + d } else r).ID = r.ID := by
      split <;> rfl
    rw [hid]
    by_cases hr : r.ID = x
    · simp [hr]
    · simp [hr, ih]

theorem selectBook_updateCopies (db : DBManager) (b d x : Int) :
    (db.updateCopies b d).selectBook x
      = (db.selectBook x).map (fun r => if r.ID = b then { r with COPIES := r.COPIES + d } else r) :=
  find_updateCopies db.BOOKS b d x

theorem selectBook_id {db : DBManager} {x : Int} {r : BookRow} (h : db.selectBook x = some r) :
    r.ID = x := by
  unfold DBManager.selectBook at h
  simpa using List.find?_some h

theorem selectCopies_updateCopies (db : DBManager) (b d x : Int) :
    (db.updateCopies b d).selectCopies x
      = if x = b then (db.selectCopies x).map (fun n => n + d) else db.selectCopies x := by
  unfold DBManager.selectCopies
  rw [selectBook_updateCopies]
  cases hs : db.selectBook x with
  | none => simp
  | some r =>
    have hid := selectBook_id hs
    by_cases hx : x = b
    · simp [hx, hid ▸ hx]
    · have : r.ID ≠ b := by rw [hid]; exact hx
      simp [hx, this]

theorem selectBook_none_iff (db : DBManager) (x : Int) :
    db.selectBook x = none ↔ db.existsBook x = false := by
  unfold DBManager.selectBook
  rw [List.find?_eq_none]
  constructor
  · intro h
    cases hex : db.existsBook x with
    | false => rfl
    | true =>
      obtain ⟨r, hr, hid⟩ := List.mem_map.1 ((existsBook_iff db x).1 hex)
      exact absurd (by simpa using hid) (h r hr)
  · intro h r hr hid
    have : db.existsBook x = true :=
      (existsBook_iff db x).2 (List.mem_map.2 ⟨r, hr, by simpa using hid⟩)
    rw [h] at this
    exact absurd this (by decide)

theorem selectBook_append (db : DBManager) (b : Int) (t a : String) (c x : Int)
    (hex : db.existsBook b = false) :
    DBManager.selectBook { db with BOOKS := db.BOOKS ++ [⟨b, t, a, c⟩] } x
      = if x = b then some ⟨b, t, a, c⟩ else db.selectBook x := by
  have hnone := (selectBook_none_iff db b).2 hex
  unfold DBManager.selectBook at hnone ⊢
  simp only [List.find?_append]
  by_cases hx : x = b
  · subst hx
    simp [hnone]
  · have hx2 : ¬ b = x := fun h => hx h.symm
    simp [hx, hx2]

theorem count_delete (T : List (Int × Int)) (hT : T.Nodup) (u b : Int) (hm : (u, b) ∈ T)
    (x : Int) :
    (((T.filter (fun p => decide (¬ (p.1 = u ∧ p.2 = b)))).filter
        (fun p => decide (p.2 = x))).length : Int)
      = ((T.filter (fun p => decide (p.2 = x))).length : Int) - (if x = b then 1 else 0) := by
  induction T with
  | nil => simp at hm
  | cons p ps ih =>
    simp only [List.nodup_cons] at hT
    by_cases hp : p = (u, b)
    · subst hp
      have hself : ps.filter (fun p => decide (¬ (p.1 = u ∧ p.2 = b))) = ps := by
        rw [List.filter_eq_self]
        intro q hq
        simp only [decide_eq_true_eq]
        rintro ⟨h1, h2⟩
        exact hT.1 (by rw [← h1, ← h2]; exact hq)
      simp only [List.filter_cons, hself]
      by_cases hx : x = b
      · subst hx; simp
      · have hx2 : ¬ b = x := fun h => hx h.symm
        simp [hx, hx2]
    · have hm2 : (u, b) ∈ ps := by
        rcases List.mem_cons.1 hm with h | h
        · exact absurd h.symm hp
        · exact h
      have hkeep : ¬ (p.1 = u ∧ p.2 = b) := by
        rintro ⟨h1, h2⟩
        exact hp (Prod.ext h1 h2)
      have := ih hT.2 hm2
      simp only [List.filter_cons, hkeep, not_false_eq_true, decide_True, if_true]
      by_cases hpx : p.2 = x
      · simp only [hpx, decide_True, if_true, List.length_cons]
        push_cast
        omega
      · simp only [hpx, decide_False]
        exact this

theorem Inv.stored_of_cached {st : LibrarySystem} (h : Inv st) {b : Int} {k : Book}
    (hk : st.findBook b = some k) : ∃ r, st.db.selectBook b = some r ∧ r ∈ st.db.BOOKS ∧
      toInt32 r.COPIES = k.numberOfCopies.val := by
  have hkm := findBook_some hk
  obtain ⟨r, hr, hid, hc⟩ := h.cacheBooksCopies k hkm.1
  have hf := find_of_nodup_key BookRow.ID st.db.BOOKS h.booksKey r hr
  rw [hid, hkm.2] at hf
  exact ⟨r, hf, hr, hc⟩

theorem Inv.row_unique {st : LibrarySystem} (h : Inv st) {r : BookRow} (hr : r ∈ st.db.BOOKS) :
    st.db.selectBook r.ID = some r :=
  find_of_nodup_key BookRow.ID st.db.BOOKS h.booksKey r hr

/-- Balance of one command: stored copies plus borrow records of a book change
by what the command adds to that book. -/
theorem step_balance {st : LibrarySystem} (h : Inv st) {op : Op} {r : Outcome × LibrarySystem}
    (hr : step st op = some r) (x : Int) :
    storedCopies r.2 x + borrowCount r.2 x
      = storedCopies st x + borrowCount st x + addedBy st op x := by
  cases op with
  | addLibrarian id name =>
    simp only [step] at hr
    simp only [addedBy, add_zero]
    unfold LibrarySystem.addLibrarian at hr
    split at hr
    · cases hr; rfl
    · cases hins : st.db.insertUser id name "Librarian" with
      | none => rw [hins] at hr; cases hr
      | some db1 =>
        rw [hins] at hr
        cases hr
        rw [insertUser_some hins]
        rfl
  | addStudent id name =>
    simp only [step] at hr
    simp only [addedBy, add_zero]
    unfold LibrarySystem.addStudent at hr
    split at hr
    · cases hr; rfl
    · cases hins : st.db.insertUser id name "Student" with
      | none => rw [hins] at hr; cases hr
      | some db1 =>
        rw [hins] at hr
        cases hr
        rw [insertUser_some hins]
        rfl
  | displayAll =>
    cases (Option.some.inj hr)
    simp only [addedBy, add_zero]
    rfl
  | addBook u b t a c =>
    simp only [step] at hr
    simp only [addedBy, hr, Option.map_some']
    rcases addBook_cases hr with rfl | rfl | ⟨hex, _, rfl⟩ | ⟨hex, rfl⟩
    · simp
    · simp
    · simp only [Option.some.injEq, or_true, and_true, storedCopies, borrowCount, reduceCtorEq,
        false_or]
      have hT : (st.db.updateCopies b c).TRANSACTIONS = st.db.TRANSACTIONS := rfl
      rw [hT, selectCopies_updateCopies]
      by_cases hx : x = b
      · subst hx
        have hsome : st.db.selectBook x ≠ none := by
          intro hn
          rw [(selectBook_none_iff _ _).1 hn] at hex
          exact absurd hex (by decide)
        cases hs : st.db.selectBook x with
        | none => exact absurd hs hsome
        | some r =>
          simp [DBManager.selectCopies, hs]
          omega
      · have hx2 : ¬ b = x := fun h => hx h.symm
        simp [hx, hx2]
    · simp only [Option.some.injEq, true_or, and_true, storedCopies, borrowCount,
        DBManager.selectCopies]
      rw [selectBook_append _ _ _ _ _ _ hex]
      by_cases hx : x = b
      · subst hx
        simp [(selectBook_none_iff _ _).2 hex]
        omega
      · have hx2 : ¬ b = x := fun h => hx h.symm
        simp [hx, hx2]
  | borrowBook u b =>
    cases (Option.some.inj hr)
    simp only [addedBy, add_zero]
    by_cases hout : (st.borrowBook u b).1 = .borrowed
    · obtain ⟨nm, bs, k, _, hfb, _, _, hst⟩ := borrowBook_success hout
      obtain ⟨r, hsel, _, _⟩ := h.stored_of_cached hfb
      rw [hst]
      simp only [storedCopies, borrowCount]
      have hsc : ((st.db.insertTransaction u b).updateCopies b (-1)).selectCopies x
          = (st.db.updateCopies b (-1)).selectCopies x := rfl
      have hT : ((st.db.insertTransaction u b).updateCopies b (-1)).TRANSACTIONS
          = st.db.TRANSACTIONS ++ [(u, b)] := rfl
      rw [hsc, hT, selectCopies_updateCopies, List.filter_append, List.length_append]
      by_cases hx : x = b
      · subst hx
        simp [DBManager.selectCopies, hsel]
        omega
      · have hx2 : ¬ b = x := fun h => hx h.symm
        simp [hx, hx2]
    · rw [borrowBook_unchanged hout]
  | returnBook u b =>
    cases (Option.some.inj hr)
    simp only [addedBy, add_zero]
    by_cases hout : (st.returnBook u b).1 = .returned
    · obtain ⟨nm, bs, k, _, hfb, hmem, hst⟩ := returnBook_success hout
      obtain ⟨r, hsel, _, _⟩ := h.stored_of_cached hfb
      rw [hst]
      simp only [storedCopies, borrowCount]
      have hsc : ((st.db.deleteTransaction u b).updateCopies b 1).selectCopies x
          = (st.db.updateCopies b 1).selectCopies x := rfl
      have hT : ((st.db.deleteTransaction u b).updateCopies b 1).TRANSACTIONS
          = st.db.TRANSACTIONS.filter (fun p => decide (¬ (p.1 = u ∧ p.2 = b))) := rfl
      rw [hsc, hT, selectCopies_updateCopies, count_delete st.db.TRANSACTIONS h.transKey u b hmem x]
      by_cases hx : x = b
      · subst hx
        simp [DBManager.selectCopies, hsel]
      · simp [hx]
    · rw [returnBook_unchanged hout]

/-- Balance over a command sequence. -/
theorem run_balance {st st2 : LibrarySystem} (h : Inv st) {ops : List Op}
    (hr : run st ops = some st2) (x : Int) :
    storedCopies st2 x + borrowCount st2 x
      = storedCopies st x + borrowCount st x + totalAdded st ops x := by
  induction ops generalizing st with
  | nil =>
    cases (Option.some.inj hr)
    simp [totalAdded]
  | cons op ops ih =>
    simp only [run] at hr
    cases hs : step st op with
    | none => rw [hs] at hr; cases hr
    | some r =>
      rw [hs] at hr
      simp only [totalAdded, hs]
      rw [ih (h.step hs) hr, step_balance h hs x]
      omega

theorem storeNonneg_step {st : LibrarySystem} (h : Inv st) (hn : StoreNonneg st) {op : Op}
    {r : Outcome × LibrarySystem} (hr : step st op = some r)
    (hop : op.copiesNonneg = true) : StoreNonneg r.2 := by
  cases op with
  | addLibrarian id name =>
    simp only [step] at hr
    unfold LibrarySystem.addLibrarian at hr
    split at hr
    · cases hr; exact hn
    · cases hins : st.db.insertUser id name "Librarian" with
      | none => rw [hins] at hr; cases hr
      | some db1 =>
        rw [hins] at hr
        cases hr
        rw [insertUser_some hins]
        exact hn
  | addStudent id name =>
    simp only [step] at hr
    unfold LibrarySystem.addStudent at hr
    split at hr
    · cases hr; exact hn
    · cases hins : st.db.insertUser id name "Student" with
      | none => rw [hins] at hr; cases hr
      | some db1 =>
        rw [hins] at hr
        cases hr
        rw [insertUser_some hins]
        exact hn
  | displayAll =>
    cases (Option.some.inj hr)
    exact hn
  | addBook u b t a c =>
    simp only [Op.copiesNonneg, decide_eq_true_eq] at hop
    simp only [step] at hr
    rcases addBook_cases hr with rfl | rfl | ⟨_, _, rfl⟩ | ⟨_, rfl⟩
    · exact hn
    · exact hn
    · intro r hr
      simp only [DBManager.updateCopies, List.mem_map] at hr
      obtain ⟨r0, hr0, rfl⟩ := hr
      have := hn r0 hr0
      split
      · simp only; omega
      · exact this
    · intro r hr
      simp only [List.mem_append, List.mem_singleton] at hr
      rcases hr with hr | rfl
      · exact hn r hr
      · exact hop
  | borrowBook u b =>
    cases (Option.some.inj hr)
    by_cases hout : (st.borrowBook u b).1 = .borrowed
    · obtain ⟨nm, bs, k, _, _, hcop, _, hst⟩ := borrowBook_success hout
      rw [hst]
      intro r hr
      simp only [DBManager.updateCopies, DBManager.insertTransaction, List.mem_map] at hr
      obtain ⟨r0, hr0, rfl⟩ := hr
      have h0 := hn r0 hr0
      split
      · rename_i hid
        have hsel := h.row_unique hr0
        rw [hid] at hsel
        simp only [DBManager.getScalarCopies, hsel, toInt32] at hcop
        simp only
        omega
      · exact h0
    · rw [borrowBook_unchanged hout]; exact hn
  | returnBook u b =>
    cases (Option.some.inj hr)
    by_cases hout : (st.returnBook u b).1 = .returned
    · obtain ⟨nm, bs, k, _, _, _, hst⟩ := returnBook_success hout
      rw [hst]
      intro r hr
      simp only [DBManager.updateCopies, DBManager.deleteTransaction, List.mem_map] at hr
      obtain ⟨r0, hr0, rfl⟩ := hr
      have h0 := hn r0 hr0
      split
      · simp only; omega
      · exact h0
    · rw [returnBook_unchanged hout]; exact hn

theorem storeNonneg_run {st st2 : LibrarySystem} (h : Inv st) (hn : StoreNonneg st)
    {ops : List Op} (hr : run st ops = some st2)
    (hops : ∀ op ∈ ops, op.copiesNonneg = true) : StoreNonneg st2 := by
  induction ops generalizing st with
  | nil =>
    cases (Option.some.inj hr)
    exact hn
  | cons op ops ih =>
    simp only [run] at hr
    cases hs : step st op with
    | none => rw [hs] at hr; cases hr
    | some r =>
      rw [hs] at hr
      exact ih (h.step hs) (storeNonneg_step h hn hs (hops op (List.mem_cons_self _ _))) hr
        (fun o ho => hops o (List.mem_cons_of_mem _ ho))

theorem storeNonneg_init : StoreNonneg LibrarySystem.init := by
  intro r hr
  simp [LibrarySystem.init, LibrarySystem.construct, DBManager.empty] at hr

theorem storedCopies_nonneg {st : LibrarySystem} (hn : StoreNonneg st) (x : Int) :
    0 ≤ storedCopies st x := by
  unfold storedCopies DBManager.selectCopies
  cases hs : st.db.selectBook x with
  | none => simp
  | some r =>
    have hr : r ∈ st.db.BOOKS := List.mem_of_find?_eq_some hs
    simpa using hn r hr

/-- C2 (amended): every command sequence whose text arguments are safe (no
quote character, no NUL) and whose `addBook` calls pass `copies >= 0` runs
from the empty store to a state in which every persisted `COPIES` is
non-negative, and in which the cached `numberOfCopies` of a book is
non-negative as long as its persisted `COPIES` is at most `INT_MAX`. -/
theorem C2_copies_nonneg (ops : List Op) (hsafe : ∀ op ∈ ops, op.textSafe = true)
    (hops : ∀ op ∈ ops, op.copiesNonneg = true) :
    ∃ st, run LibrarySystem.init ops = some st ∧
      (∀ r ∈ st.db.BOOKS, 0 ≤ r.COPIES) ∧
      (∀ k ∈ st.books, ∀ r ∈ st.db.BOOKS,
        r.ID = k.bookId → r.COPIES ≤ INT_MAX → 0 ≤ k.numberOfCopies.val) := by
  obtain ⟨st, hrun⟩ := run_defined LibrarySystem.init ops hsafe
  have h : Inv st := Inv.run Inv.init hrun
  have hn : StoreNonneg st := storeNonneg_run Inv.init storeNonneg_init hrun hops
  refine ⟨st, hrun, hn, ?_⟩
  intro k hk r hr hid hmax
  obtain ⟨r2, hr2, hid2, hc2⟩ := h.cacheBooksCopies k hk
  have e1 := h.row_unique hr
  have e2 := h.row_unique hr2
  rw [hid] at e1
  rw [hid2, e1] at e2
  have hrr : r = r2 := by simpa using e2
  subst hrr
  have h0 := hn r hr
  rw [← hc2]
  unfold INT_MAX at hmax
  unfold toInt32
  omega

/-- Witness for C2 (amended): the scenario of the specification up to the
first borrow. -/
theorem C2_copies_nonneg_witness :
    ((∀ op ∈ borrowedOps, op.textSafe = true) ∧ (∀ op ∈ borrowedOps, op.copiesNonneg = true)) ∧
    ∃ st, run LibrarySystem.init borrowedOps = some st ∧
      (∀ r ∈ st.db.BOOKS, 0 ≤ r.COPIES) ∧
      (∀ k ∈ st.books, ∀ r ∈ st.db.BOOKS,
        r.ID = k.bookId → r.COPIES ≤ INT_MAX → 0 ≤ k.numberOfCopies.val) :=
  ⟨by decide, C2_copies_nonneg borrowedOps (by decide) (by decide)⟩

/-- Counterexample to C2 as stated: `addBook(1, 100, "Dune", "Herbert", -5)` by
a librarian stores `COPIES = -5` and loads `numberOfCopies = -5`. -/
theorem C2_counterexample :
    run LibrarySystem.init negativeOps = some (stateAfter negativeOps) ∧
    (stateAfter negativeOps).db.BOOKS.map BookRow.COPIES = [-5] ∧
    (stateAfter negativeOps).books.map Book.getCopies = [-5] ∧
    ¬ (∀ r ∈ (stateAfter negativeOps).db.BOOKS, 0 ≤ r.COPIES) ∧
    ¬ (∀ k ∈ (stateAfter negativeOps).books, 0 ≤ k.numberOfCopies.val) := by
  decide

/-- With safe text and non-negative `copies` arguments only, a return at
`INT_MAX` takes the persisted count to `2^31` and wraps the cached one to
`-2^31`; the next reload drops the book from the in-memory list. -/
theorem cached_copies_wrap_example :
    (∀ op ∈ overflowOps, op.textSafe = true ∧ op.copiesNonneg = true) ∧
    (stateAfter overflowOps).db.BOOKS.map BookRow.COPIES = [2147483648] ∧
    (stateAfter overflowOps).books.map Book.getCopies = [-2147483648] ∧
    (stateAfter (overflowOps ++ [.displayAll])).books = [] := by
  decide

/-- C10 (amended): every command sequence whose text arguments are safe (no
quote character, no NUL) and whose `addBook` calls pass `copies >= 0` runs
from the empty store to a state in which, for every book `b`, the number of
`TRANSACTIONS` rows with `BOOK_ID = b` is at most the total of copies added
to `b` by successful `addBook` calls; the persisted copy count plus the
number of those rows equals that total, and the persisted copy count is not
negative. -/
theorem C10_records_within_stock (ops : List Op) (hsafe : ∀ op ∈ ops, op.textSafe = true)
    (hops : ∀ op ∈ ops, op.copiesNonneg = true) (b : Int) :
    ∃ st, run LibrarySystem.init ops = some st ∧
      borrowCount st b ≤ totalAdded LibrarySystem.init ops b ∧
      storedCopies st b + borrowCount st b = totalAdded LibrarySystem.init ops b ∧
      0 ≤ storedCopies st b := by
  obtain ⟨st, hrun⟩ := run_defined LibrarySystem.init ops hsafe
  have hbal := run_balance Inv.init hrun b
  have hn := storedCopies_nonneg (storeNonneg_run Inv.init storeNonneg_init hrun hops) b
  have h0 : storedCopies LibrarySystem.init b + borrowCount LibrarySystem.init b = 0 := by
    simp [storedCopies, borrowCount, LibrarySystem.init, LibrarySystem.construct,
      DBManager.empty, DBManager.selectCopies, DBManager.selectBook]
  exact ⟨st, hrun, by omega, by omega, hn⟩

/-- Witness for C10 (amended): after the first borrow of the scenario, book 100
has one record, one stored copy and two copies added. -/
theorem C10_records_within_stock_witness :
    ((∀ op ∈ borrowedOps, op.textSafe = true) ∧ (∀ op ∈ borrowedOps, op.copiesNonneg = true)) ∧
    ∃ st, run LibrarySystem.init borrowedOps = some st ∧
      borrowCount st 100 ≤ totalAdded LibrarySystem.init borrowedOps 100 ∧
      storedCopies st 100 + borrowCount st 100 = totalAdded LibrarySystem.init borrowedOps 100 ∧
      0 ≤ storedCopies st 100 :=
  ⟨by decide, C10_records_within_stock borrowedOps (by decide) (by decide) 100⟩

/-- Counterexample to C10 as stated: after one copy of book 100 is added and
borrowed, a merging `addBook` with `copies = -1` leaves one borrow record
against a total of zero copies added, and a persisted count of `-1`. -/
theorem C10_counterexample :
    run LibrarySystem.init takeBackOps = some (stateAfter takeBackOps) ∧
    borrowCount (stateAfter takeBackOps) 100 = 1 ∧
    totalAdded LibrarySystem.init takeBackOps 100 = 0 ∧
    storedCopies (stateAfter takeBackOps) 100 = -1 ∧
    ¬ (borrowCount (stateAfter takeBackOps) 100
        ≤ totalAdded LibrarySystem.init takeBackOps 100) := by
  decide

/-! ## Checks of `borrowBook` and `addBook` -/

/-- The scalar read of the copy count is the persisted `COPIES` whenever that
value is inside the `int` range. -/
theorem getScalarCopies_of_range (db : DBManager) (b n : Int) (h : db.selectCopies b = some n)
    (hr : -2147483648 ≤ n ∧ n ≤ 2147483647) : db.getScalarCopies b = n := by
  unfold DBManager.selectCopies at h
  unfold DBManager.getScalarCopies
  cases hs : db.selectBook b with
  | none => rw [hs] at h; cases h
  | some r =>
    rw [hs] at h
    simp only [Option.map_some', Option.some.injEq] at h
    simp only [h]
    exact toInt32_of_range n hr

theorem findUser_none_iff (st : LibrarySystem) (u : Int) :
    st.findUser u = none ↔ u ∉ st.users.map User.getId := by
  unfold LibrarySystem.findUser
  rw [List.find?_eq_none]
  simp only [decide_eq_true_eq, List.mem_map, not_exists, not_and]

theorem findBook_none_iff (st : LibrarySystem) (b : Int) :
    st.findBook b = none ↔ b ∉ st.books.map Book.bookId := by
  unfold LibrarySystem.findBook
  rw [List.find?_eq_none]
  simp only [decide_eq_true_eq, List.mem_map, not_exists, not_and]

/-- C8 (amended): in every state where the cached copy count of `b`, when `b`
is in the in-memory list, equals its persisted `COPIES`, the outcome of
`borrowBook(u, b)` is the one prescribed by the ordered checks (unknown user,
unknown book, copy count at most zero, active record, librarian, else
success), and every outcome other than success leaves the state unchanged. -/
theorem C8_ordered_borrow_checks (st : LibrarySystem) (u b : Int)
    (hsync : ∀ k, st.findBook b = some k →
      st.db.selectCopies b = some k.numberOfCopies.val) :
    (st.borrowBook u b).1 = borrowOutcomeSpec st u b ∧
    ((st.borrowBook u b).1 = .borrowed ∨ (st.borrowBook u b).2 = st) := by
  refine ⟨?_, ?_⟩
  · unfold borrowOutcomeSpec LibrarySystem.borrowBook
    cases hfu : st.findUser u with
    | none =>
      rw [if_pos ((findUser_none_iff st u).1 hfu)]
    | some user =>
      have hu : ¬ u ∉ st.users.map User.getId := by
        rw [← findUser_none_iff, hfu]; simp
      rw [if_neg hu]
      cases hfb : st.findBook b with
      | none =>
        rw [if_pos ((findBook_none_iff st b).1 hfb)]
      | some k =>
        have hb : ¬ b ∉ st.books.map Book.bookId := by
          rw [← findBook_none_iff, hfb]; simp
        rw [if_neg hb]
        have hsel := hsync k hfb
        have hread : st.db.getScalarCopies b = storedCopies st b := by
          rw [getScalarCopies_of_range st.db b _ hsel k.numberOfCopies.property]
          simp [storedCopies, hsel]
        simp only []
        rw [hread]
        by_cases hcop : storedCopies st b ≤ 0
        · rw [if_pos hcop, if_pos hcop]
        · rw [if_neg hcop, if_neg hcop]
          by_cases hbor : st.db.isBookBorrowed u b = true
          · rw [if_pos hbor, if_pos ((isBookBorrowed_iff _ _ _).1 hbor)]
          · rw [if_neg hbor, if_neg (fun hm => hbor ((isBookBorrowed_iff _ _ _).2 hm))]
            cases user with
            | Librarian uid nm => simp [User.getRole]
            | Student uid nm bs => simp [User.getRole]
  · by_cases hout : (st.borrowBook u b).1 = .borrowed
    · exact Or.inl hout
    · exact Or.inr (borrowBook_unchanged hout)

/-- Witness for C8 (amended): student 5 and book 100 after `sampleOps`, where
the cached and the persisted count are both 2. -/
theorem C8_ordered_borrow_checks_witness :
    ((stateAfter sampleOps).db.selectCopies 100 = some 2 ∧
      ((stateAfter sampleOps).findBook 100).map Book.getCopies = some 2) ∧
    ((stateAfter sampleOps).borrowBook 5 100).1 = borrowOutcomeSpec (stateAfter sampleOps) 5 100 ∧
    (((stateAfter sampleOps).borrowBook 5 100).1 = .borrowed ∨
      ((stateAfter sampleOps).borrowBook 5 100).2 = stateAfter sampleOps) :=
  ⟨by decide, C8_ordered_borrow_checks (stateAfter sampleOps) 5 100 (by
    intro k hk
    have hf : (stateAfter sampleOps).findBook 100
        = some ⟨100, "Dune", "Herbert", ⟨2, by decide⟩⟩ := by decide
    rw [hf] at hk
    cases hk
    decide)⟩

/-- Counterexample to C8 as stated.  After `overflowOps` user 5 is a student
without record, book 100 is in the in-memory list and its persisted copy count
is `2^31`, above zero: the ordered checks prescribe success, yet
`borrowBook(5, 100)` fails with `BookNotAvailable`, because the count is read
into an `int`.  In `smuggledUpdateState` the cached copy count of book 100 is 0
and the persisted one 5: `borrowBook(5, 100)` succeeds. -/
theorem C8_counterexample :
    (run LibrarySystem.init overflowOps = some (stateAfter overflowOps) ∧
      storedCopies (stateAfter overflowOps) 100 = 2147483648 ∧
      borrowOutcomeSpec (stateAfter overflowOps) 5 100 = .borrowed ∧
      ((stateAfter overflowOps).borrowBook 5 100).1 = .bookNotAvailable) ∧
    ((smuggledUpdateState.findBook 100).map Book.getCopies = some 0 ∧
      (smuggledUpdateState.borrowBook 5 100).1 = .borrowed) := by
  decide

/-- C4 (amended): for every state and every book `b` of the in-memory list
whose persisted copy count is 0, `borrowBook(u, b)` leaves the state unchanged
and fails with `BookNotAvailable` when `u` is a registered user, with
`InvalidUser` when `u` is not. -/
theorem C4_zero_copies (st : LibrarySystem) (u b : Int)
    (hb : b ∈ st.books.map Book.bookId) (hc : st.db.selectCopies b = some 0) :
    st.borrowBook u b
      = (if u ∈ st.users.map User.getId then .bookNotAvailable else .invalidUser, st) := by
  unfold LibrarySystem.borrowBook
  cases hfu : st.findUser u with
  | none =>
    rw [if_neg ((findUser_none_iff st u).1 hfu)]
  | some user =>
    have hu : u ∈ st.users.map User.getId := by
      by_contra hn
      rw [(findUser_none_iff st u).2 hn] at hfu
      cases hfu
    rw [if_pos hu]
    cases hfb : st.findBook b with
    | none => exact absurd hb ((findBook_none_iff st b).1 hfb)
    | some k =>
      have hsc : st.db.getScalarCopies b = 0 := by
        unfold DBManager.selectCopies at hc
        unfold DBManager.getScalarCopies
        cases hs : st.db.selectBook b with
        | none => rw [hs] at hc; cases hc
        | some r =>
          rw [hs] at hc
          simp only [Option.map_some', Option.some.injEq] at hc
          simp [hc, toInt32]
      simp [hsc]

/-- Witness for C4 (amended): student 5 asks for book 100, which has no
copy. -/
theorem C4_zero_copies_witness :
    100 ∈ (stateAfter zeroOps).books.map Book.bookId ∧
    (stateAfter zeroOps).db.selectCopies 100 = some 0 ∧
    (stateAfter zeroOps).borrowBook 5 100
      = (if 5 ∈ (stateAfter zeroOps).users.map User.getId
          then .bookNotAvailable else .invalidUser, stateAfter zeroOps) :=
  ⟨by decide, by decide, C4_zero_copies (stateAfter zeroOps) 5 100 (by decide) (by decide)⟩

/-- Counterexample to C4 as stated: book 100 has copy count 0 and user 7 is
not registered; `borrowBook(7, 100)` fails with `InvalidUser`, not with
`BookNotAvailable`. -/
theorem C4_counterexample :
    run LibrarySystem.init zeroOps = some (stateAfter zeroOps) ∧
    (stateAfter zeroOps).db.selectCopies 100 = some 0 ∧
    ((stateAfter zeroOps).findBook 100).map Book.getCopies = some 0 ∧
    (stateAfter zeroOps).findUser 7 = none ∧
    ((stateAfter zeroOps).borrowBook 7 100).1 = .invalidUser ∧
    ((stateAfter zeroOps).borrowBook 7 100).1 ≠ .bookNotAvailable := by
  decide

/-- C7: for every state in which `l` is a librarian and book `b` has a row,
`addBook(l, b, t2, a, c)` with a title `t2` other than the stored one returns
the conflict outcome, which is no exception, and leaves the whole state
unchanged. -/
theorem C7_title_conflict_noop (st : LibrarySystem) (l b : Int) (nm : String) (row : BookRow)
    (t2 a : String) (c : Int)
    (hl : st.findUser l = some (.Librarian l nm))
    (hb : st.db.selectBook b = some row)
    (hne : t2 ≠ row.TITLE) :
    st.addBook l b t2 a c = some (.titleConflict, st) ∧
    (st.addBook l b t2 a c).map (fun r => r.1.isException) = some false := by
  have hex : st.db.existsBook b = true := by
    cases h : st.db.existsBook b with
    | true => rfl
    | false =>
      rw [(selectBook_none_iff _ _).2 h] at hb
      cases hb
  have ht : st.db.getStringTitle b ≠ t2 := by
    simp only [DBManager.getStringTitle, hb]
    exact fun h => hne h.symm
  have hres : st.addBook l b t2 a c = some (.titleConflict, st) := by
    rw [addBook_librarian hl, if_pos hex, if_neg ht]
  exact ⟨hres, by rw [hres]; rfl⟩

/-- Witness for C7: "Foundation" offered under id 100, which holds "Dune". -/
theorem C7_title_conflict_noop_witness :
    ((stateAfter sampleOps).findUser 1 = some (.Librarian 1 "Lib") ∧
      (stateAfter sampleOps).db.selectBook 100 = some ⟨100, "Dune", "Herbert", 2⟩ ∧
      "Foundation" ≠ "Dune") ∧
    (stateAfter sampleOps).addBook 1 100 "Foundation" "Asimov" 1
      = some (.titleConflict, stateAfter sampleOps) ∧
    ((stateAfter sampleOps).addBook 1 100 "Foundation" "Asimov" 1).map
      (fun r => r.1.isException) = some false :=
  ⟨by decide, C7_title_conflict_noop (stateAfter sampleOps) 1 100 "Lib"
    ⟨100, "Dune", "Herbert", 2⟩ "Foundation" "Asimov" 1 (by decide) (by decide) (by decide)⟩

/-! ## Effects of `borrowBook` and `addBook` -/

theorem filter_updateCopies_other (B : List BookRow) (b d : Int) :
    (B.map (fun r => if r.ID = b then { r with COPIES := r.COPIES + d } else r)).filter
        (fun r => decide (r.ID ≠ b))
      = B.filter (fun r => decide (r.ID ≠ b)) := by
  induction B with
  | nil => rfl
  | cons r rs ih =>
    by_cases hr : r.ID = b
    · simp only [List.map_cons, hr, if_true, List.filter_cons, ne_eq, not_true_eq_false,
        decide_False, Bool.false_eq_true, if_false]
      exact ih
    · simp only [List.map_cons, hr, if_false, List.filter_cons, ne_eq, not_false_eq_true,
        decide_True, if_true, List.cons.injEq, true_and]
      exact ih

theorem find_modifyFirst_users {st : LibrarySystem} {u : Int} {x : User} (f : User → User)
    (hf : ∀ y, (f y).getId = y.getId) (h : st.findUser u = some x) :
    (modifyFirst (fun y => decide (y.getId = u)) f st.users).find? (fun y => decide (y.getId = u))
      = some (f x) := by
  unfold LibrarySystem.findUser at h
  rw [find_modifyFirst_same _ _ _ (by intro y hy; simpa [hf] using hy), h]
  rfl

theorem find_modifyFirst_books {st : LibrarySystem} {b : Int} {k : Book} (f : Book → Book)
    (hf : ∀ y, (f y).bookId = y.bookId) (h : st.findBook b = some k) :
    (modifyFirst (fun y => decide (y.bookId = b)) f st.books).find? (fun y => decide (y.bookId = b))
      = some (f k) := by
  unfold LibrarySystem.findBook at h
  rw [find_modifyFirst_same _ _ _ (by intro y hy; simpa [hf] using hy), h]
  rfl

/-- C9: in a state where the cached copy count of each book equals its
persisted `COPIES`, for a student `s` and a book `b` with copy count above
zero and no active record `(s, b)`, `borrowBook(s, b)` succeeds, appends the
row `(s, b)` to `TRANSACTIONS`, sets the persisted and the cached copy count
of `b` to one less (title and author kept), appends `b` to the student's
`borrowedBookIds`, and leaves the `USERS` table, the other books (store and
list) and the other users unchanged. -/
theorem C9_borrow_effect (st : LibrarySystem) (s b : Int) (nm : String) (bs : List Int)
    (k : Book)
    (hsync : ∀ x ∈ st.books, st.db.selectCopies x.bookId = some x.numberOfCopies.val)
    (hs : st.findUser s = some (.Student s nm bs))
    (hk : st.findBook b = some k)
    (hn : 0 < k.numberOfCopies.val)
    (hrec : (s, b) ∉ st.db.TRANSACTIONS) :
    (st.borrowBook s b).1 = .borrowed ∧
    (st.borrowBook s b).2.db.TRANSACTIONS = st.db.TRANSACTIONS ++ [(s, b)] ∧
    (st.borrowBook s b).2.db.selectBook b
      = (st.db.selectBook b).map (fun r => { r with COPIES := k.numberOfCopies.val - 1 }) ∧
    (st.borrowBook s b).2.db.selectCopies b = some (k.numberOfCopies.val - 1) ∧
    ((st.borrowBook s b).2.findBook b).map
        (fun x => (x.bookId, x.title, x.author, x.numberOfCopies.val))
      = some (b, k.title, k.author, k.numberOfCopies.val - 1) ∧
    (st.borrowBook s b).2.findUser s = some (.Student s nm (bs ++ [b])) ∧
    (st.borrowBook s b).2.db.USERS = st.db.USERS ∧
    (st.borrowBook s b).2.db.BOOKS.filter (fun r => decide (r.ID ≠ b))
      = st.db.BOOKS.filter (fun r => decide (r.ID ≠ b)) ∧
    (st.borrowBook s b).2.books.filter (fun x => decide (x.bookId ≠ b))
      = st.books.filter (fun x => decide (x.bookId ≠ b)) ∧
    (st.borrowBook s b).2.users.filter (fun x => decide (x.getId ≠ s))
      = st.users.filter (fun x => decide (x.getId ≠ s)) := by
  have hkm := findBook_some hk
  have hcop := hsync k hkm.1
  rw [hkm.2] at hcop
  have hp := k.numberOfCopies.property
  obtain ⟨r, hsel, hrc⟩ : ∃ r, st.db.selectBook b = some r ∧ r.COPIES = k.numberOfCopies.val := by
    unfold DBManager.selectCopies at hcop
    cases hs2 : st.db.selectBook b with
    | none => rw [hs2] at hcop; cases hcop
    | some r =>
      rw [hs2] at hcop
      exact ⟨r, rfl, by simpa using hcop⟩
  have hrid := selectBook_id hsel
  have hscalar : ¬ st.db.getScalarCopies b ≤ 0 := by
    simp only [DBManager.getScalarCopies, hsel, hrc, toInt32]
    omega
  have hbor : ¬ st.db.isBookBorrowed s b = true := fun h => hrec ((isBookBorrowed_iff _ _ _).1 h)
  have hst : st.borrowBook s b = (.borrowed,
      { db := (st.db.insertTransaction s b).updateCopies b (-1),
        users := modifyFirst (fun x => x.getId = s) (User.borrowBook b) st.users,
        books := modifyFirst (fun k => k.bookId = b) Book.decreaseCopy st.books }) := by
    unfold LibrarySystem.borrowBook
    rw [hs, hk]
    simp only [if_neg hscalar, if_neg hbor]
  have hselNew : ((st.db.insertTransaction s b).updateCopies b (-1)).selectBook b
      = (st.db.selectBook b).map (fun r => { r with COPIES := k.numberOfCopies.val - 1 }) := by
    have e : ((st.db.insertTransaction s b).updateCopies b (-1)).selectBook b
        = (st.db.updateCopies b (-1)).selectBook b := rfl
    rw [e, selectBook_updateCopies, hsel]
    simp only [Option.map_some', hrid, if_true, Option.some.injEq, BookRow.mk.injEq, true_and]
    rw [hrc]; rfl
  rw [hst]
  refine ⟨rfl, rfl, hselNew, ?_, ?_, ?_, rfl, ?_, ?_, ?_⟩
  · unfold DBManager.selectCopies
    rw [hselNew, hsel]
    rfl
  · unfold LibrarySystem.findBook
    simp only []
    rw [find_modifyFirst_books Book.decreaseCopy bookId_decreaseCopy hk]
    simp only [Option.map_some', Option.some.injEq, Prod.mk.injEq]
    unfold Book.decreaseCopy
    rw [dif_pos hn]
    exact ⟨hkm.2, rfl, rfl, rfl⟩
  · unfold LibrarySystem.findUser
    simp only []
    rw [find_modifyFirst_users (User.borrowBook b) (getId_borrowBook b) hs]
    rfl
  · exact filter_updateCopies_other st.db.BOOKS b (-1)
  · exact filter_modifyFirst_other Book.bookId b Book.decreaseCopy bookId_decreaseCopy st.books
  · exact filter_modifyFirst_other User.getId s (User.borrowBook b) (getId_borrowBook b) st.users

/-- Witness for C9: student 5 borrows book 100 while it has two copies. -/
theorem C9_borrow_effect_witness :
    ((stateAfter sampleOps).findUser 5 = some (.Student 5 "Stu" []) ∧
      ((stateAfter sampleOps).findBook 100).map Book.getCopies = some 2 ∧
      (5, 100) ∉ (stateAfter sampleOps).db.TRANSACTIONS) ∧
    ((stateAfter sampleOps).borrowBook 5 100).1 = .borrowed ∧
    ((stateAfter sampleOps).borrowBook 5 100).2.db.TRANSACTIONS = [(5, 100)] ∧
    ((stateAfter sampleOps).borrowBook 5 100).2.db.selectCopies 100 = some 1 ∧
    ((stateAfter sampleOps).borrowBook 5 100).2.findUser 5
      = some (.Student 5 "Stu" [100]) := by
  have h := C9_borrow_effect (stateAfter sampleOps) 5 100 "Stu" []
    ⟨100, "Dune", "Herbert", ⟨2, by decide⟩⟩ (by decide) (by decide) (by decide) (by decide)
    (by decide)
  exact ⟨by decide, h.1, h.2.1, h.2.2.2.1, h.2.2.2.2.2.1⟩

end Library
